import Mathlib

/-!
# Tier State Engine: a shallow embedding

This file embeds the tier-list state engine of the repository
(`src/components/TierListManager.tsx`, `src/models/Tier.ts`, and the
`TierCortex` class) in Lean 4 and proves properties of it.

JavaScript/TypeScript runtime primitives used by the code (`Map`,
object-property assignment, `Array.prototype.sort`, `String.localeCompare`,
`JSON.parse`, field access on untyped values) are modelled explicitly; each
such model carries a doc comment saying which runtime behaviour it captures.
-/

namespace TierApp

open scoped List

/-- Label positions, from `src/models/Tier.ts` (`type LabelPosition = 'top' | 'left' | 'right'`). -/
inductive LabelPosition where
  | top
  | left
  | right
deriving DecidableEq, Repr

/-- An item. `src/models/Item.ts` is not among the sources; the shape
`{id : string, content : string, imageUrl? : string}` is reconstructed from its
uses in `TierCortex` and `TierListManager.tsx` and matches the spec's data
model (`id`, `content`, optional `imageUrl`). -/
structure Item where
  id : String
  content : String
  imageUrl : Option String := none
deriving DecidableEq, Repr

/-- A tier, from `src/models/Tier.ts` (`interface Tier`). -/
structure Tier where
  id : String
  name : String
  items : List Item
  labelPosition : Option LabelPosition := none
  placeholder : Option String := none
deriving DecidableEq, Repr

/-- An item set. `src/models/ItemSet.ts` is not among the sources; the shape
(`packageName`, list of image filenames) is reconstructed from its uses in
`TierCortex.getInitialTiers`. -/
structure ItemSet where
  packageName : String
  images : List String
deriving DecidableEq, Repr

/-- One image entry of the bundled catalog configuration
(`imageset.config.json`): a filename and an optional label, as read by
`TierCortex.initializePackageItemLookup`. -/
structure ImageEntry where
  filename : String
  label : Option String := none
deriving DecidableEq, Repr

/-- The bundled catalog configuration: package name to image entries, in
document order (JS `Object.entries` iterates string keys in insertion order). -/
abbrev ImageSetCfg : Type := List (String × List ImageEntry)

/-- A stored custom item record `{i, c, d}` (id, content, imageData), from the
`StoredCustomItem` interface of `TierCortex`. -/
structure StoredCustomItem where
  i : String
  c : String
  d : String
deriving DecidableEq, Repr

/-! ## Models of JS runtime primitives -/

/-- Association-list lookup with decidable string equality: first binding wins.
Models `Map.prototype.get` and JS object property lookup on our map models. -/
def assocFind (k : String) : List (String × α) → Option α
  | [] => none
  | p :: ps => if p.1 = k then some p.2 else assocFind k ps

/-- The keys of an association list. -/
def keysOf (m : List (String × α)) : List String :=
  m.map Prod.fst

/-- JS `Map.prototype.set` / object property assignment: setting an existing
key replaces its value in place (the key keeps its original position in
iteration order); a fresh key is appended at the end. -/
def jsSet (m : List (String × α)) (k : String) (v : α) : List (String × α) :=
  if k ∈ keysOf m then
    m.map (fun p => if p.1 = k then (k, v) else p)
  else m ++ [(k, v)]

/-- Building a JS `Map` (or object) from a list of key/value pairs by repeated
`set`, as `new Map(pairs)` does: for duplicate keys the value of the last
occurrence wins, at the position of the first occurrence. -/
def jsMapOfList (l : List (String × α)) : List (String × α) :=
  l.foldl (fun m p => jsSet m p.1 p.2) []

/-- Lexicographic comparison of two lists by an element comparison. -/
def cmpList (f : α → α → Ordering) : List α → List α → Ordering
  | [], [] => .eq
  | [], _ :: _ => .lt
  | _ :: _, [] => .gt
  | a :: as, b :: bs =>
    match f a b with
    | .eq => cmpList f as bs
    | o => o

/-- Case rank of a character under the default ICU collation: lowercase sorts
before uppercase at the case level. -/
def caseRank (c : Char) : Nat :=
  if c.isUpper then 1 else 0

/-- Model of JS `String.prototype.localeCompare` under the default locale,
restricted to ASCII strings (the only strings the repository sorts): a primary
case-insensitive comparison of the lowercased character sequences, and on a
primary tie a positional case comparison with lowercase before uppercase.
Returns a negative, zero or positive integer like the JS function. -/
def localeCompare (a b : String) : Int :=
  match cmpList compare (a.toList.map Char.toLower) (b.toList.map Char.toLower) with
  | .lt => -1
  | .gt => 1
  | .eq =>
    match cmpList compare (a.toList.map caseRank) (b.toList.map caseRank) with
    | .lt => -1
    | .gt => 1
    | .eq => 0

/-- Insert an element into a list sorted by the comparator, after every element
that does not compare strictly greater; the insertion step of a stable sort. -/
def insertCmp (cmp : α → α → Int) (x : α) : List α → List α
  | [] => [x]
  | y :: ys => if cmp x y < 0 then x :: y :: ys else y :: insertCmp cmp x ys

/-- Model of JS `Array.prototype.sort` with a consistent comparator: a stable
sort (stability is guaranteed by the ECMAScript specification). Implemented as
a stable insertion sort, which agrees with any stable sort for a comparator
that is a total preorder. -/
def jsSortBy (cmp : α → α → Int) (l : List α) : List α :=
  l.foldl (fun acc x => insertCmp cmp x acc) []

/-! ## Untyped JS values

`decodeTierStateFromURL` parses arbitrary JSON and then treats the result as a
`SimplifiedTier[]` via an unchecked TypeScript cast, so its behaviour on
ill-shaped input is governed by untyped JS semantics.  `JSVal` models the JSON
value universe plus `undefined`. -/
inductive JSVal where
  | null
  | undefined
  | bool (b : Bool)
  | num (n : Int)
  | str (s : String)
  | arr (xs : List JSVal)
  | obj (fields : List (String × JSVal))

mutual

/-- Decidable equality on `JSVal`, by mutual structural recursion. -/
def JSVal.decEq : (a b : JSVal) → Decidable (a = b)
  | .null, .null => .isTrue rfl
  | .undefined, .undefined => .isTrue rfl
  | .bool x, .bool y =>
    if h : x = y then .isTrue (by rw [h]) else .isFalse (fun he => h (JSVal.bool.inj he))
  | .num x, .num y =>
    if h : x = y then .isTrue (by rw [h]) else .isFalse (fun he => h (JSVal.num.inj he))
  | .str x, .str y =>
    if h : x = y then .isTrue (by rw [h]) else .isFalse (fun he => h (JSVal.str.inj he))
  | .arr xs, .arr ys =>
    match JSVal.decEqList xs ys with
    | .isTrue h => .isTrue (by rw [h])
    | .isFalse h => .isFalse (fun he => h (JSVal.arr.inj he))
  | .obj fs, .obj gs =>
    match JSVal.decEqFields fs gs with
    | .isTrue h => .isTrue (by rw [h])
    | .isFalse h => .isFalse (fun he => h (JSVal.obj.inj he))
  | .null, .undefined => .isFalse (fun h => nomatch h)
  | .null, .bool _ => .isFalse (fun h => nomatch h)
  | .null, .num _ => .isFalse (fun h => nomatch h)
  | .null, .str _ => .isFalse (fun h => nomatch h)
  | .null, .arr _ => .isFalse (fun h => nomatch h)
  | .null, .obj _ => .isFalse (fun h => nomatch h)
  | .undefined, .null => .isFalse (fun h => nomatch h)
  | .undefined, .bool _ => .isFalse (fun h => nomatch h)
  | .undefined, .num _ => .isFalse (fun h => nomatch h)
  | .undefined, .str _ => .isFalse (fun h => nomatch h)
  | .undefined, .arr _ => .isFalse (fun h => nomatch h)
  | .undefined, .obj _ => .isFalse (fun h => nomatch h)
  | .bool _, .null => .isFalse (fun h => nomatch h)
  | .bool _, .undefined => .isFalse (fun h => nomatch h)
  | .bool _, .num _ => .isFalse (fun h => nomatch h)
  | .bool _, .str _ => .isFalse (fun h => nomatch h)
  | .bool _, .arr _ => .isFalse (fun h => nomatch h)
  | .bool _, .obj _ => .isFalse (fun h => nomatch h)
  | .num _, .null => .isFalse (fun h => nomatch h)
  | .num _, .undefined => .isFalse (fun h => nomatch h)
  | .num _, .bool _ => .isFalse (fun h => nomatch h)
  | .num _, .str _ => .isFalse (fun h => nomatch h)
  | .num _, .arr _ => .isFalse (fun h => nomatch h)
  | .num _, .obj _ => .isFalse (fun h => nomatch h)
  | .str _, .null => .isFalse (fun h => nomatch h)
  | .str _, .undefined => .isFalse (fun h => nomatch h)
  | .str _, .bool _ => .isFalse (fun h => nomatch h)
  | .str _, .num _ => .isFalse (fun h => nomatch h)
  | .str _, .arr _ => .isFalse (fun h => nomatch h)
  | .str _, .obj _ => .isFalse (fun h => nomatch h)
  | .arr _, .null => .isFalse (fun h => nomatch h)
  | .arr _, .undefined => .isFalse (fun h => nomatch h)
  | .arr _, .bool _ => .isFalse (fun h => nomatch h)
  | .arr _, .num _ => .isFalse (fun h => nomatch h)
  | .arr _, .str _ => .isFalse (fun h => nomatch h)
  | .arr _, .obj _ => .isFalse (fun h => nomatch h)
  | .obj _, .null => .isFalse (fun h => nomatch h)
  | .obj _, .undefined => .isFalse (fun h => nomatch h)
  | .obj _, .bool _ => .isFalse (fun h => nomatch h)
  | .obj _, .num _ => .isFalse (fun h => nomatch h)
  | .obj _, .str _ => .isFalse (fun h => nomatch h)
  | .obj _, .arr _ => .isFalse (fun h => nomatch h)

/-- Decidable equality on lists of `JSVal`. -/
def JSVal.decEqList : (xs ys : List JSVal) → Decidable (xs = ys)
  | [], [] => .isTrue rfl
  | [], _ :: _ => .isFalse (fun h => nomatch h)
  | _ :: _, [] => .isFalse (fun h => nomatch h)
  | x :: xs, y :: ys =>
    match JSVal.decEq x y with
    | .isFalse h1 => .isFalse (fun he => h1 (List.cons.inj he).1)
    | .isTrue h1 =>
      match JSVal.decEqList xs ys with
      | .isTrue h2 => .isTrue (by rw [h1, h2])
      | .isFalse h2 => .isFalse (fun he => h2 (List.cons.inj he).2)

/-- Decidable equality on `JSVal` object field lists. -/
def JSVal.decEqFields : (fs gs : List (String × JSVal)) → Decidable (fs = gs)
  | [], [] => .isTrue rfl
  | [], _ :: _ => .isFalse (fun h => nomatch h)
  | _ :: _, [] => .isFalse (fun h => nomatch h)
  | (k, v) :: fs, (l, w) :: gs =>
    if hk : k = l then
      match JSVal.decEq v w with
      | .isFalse h1 => .isFalse (fun he => h1 (congrArg Prod.snd (List.cons.inj he).1))
      | .isTrue h1 =>
        match JSVal.decEqFields fs gs with
        | .isTrue h2 => .isTrue (by rw [hk, h1, h2])
        | .isFalse h2 => .isFalse (fun he => h2 (List.cons.inj he).2)
    else .isFalse (fun he => hk (congrArg Prod.fst (List.cons.inj he).1))

end

instance : DecidableEq JSVal := JSVal.decEq

/-- Mapping an error-raising function over a list, stopping at the first
error: the effect of `Array.prototype.map` with a callback that can throw,
under a surrounding try/catch. -/
def exMapList (f : α → Except Unit β) : List α → Except Unit (List β)
  | [] => .ok []
  | x :: xs => do
    let y ← f x
    let ys ← exMapList f xs
    .ok (y :: ys)

/-- JS property read `v.k`: on an object, the field's value or `undefined`
when absent; on `null` or `undefined`, a TypeError (`Except.error`); on any
other value, `undefined` (no own property named `i`, `n`, `t` or `c` exists on
primitives or arrays). -/
def getField : JSVal → String → Except Unit JSVal
  | .null, _ => .error ()
  | .undefined, _ => .error ()
  | .obj fs, k => .ok ((assocFind k fs).getD .undefined)
  | _, _ => .ok .undefined

/-- JS `v.map(f)` on an untyped value: a TypeError unless `v` is an array;
errors raised by the callback propagate. -/
def jsArrayMap (f : JSVal → Except Unit α) : JSVal → Except Unit (List α)
  | .arr xs => exMapList f xs
  | _ => .error ()

mutual

/-- JS ToString / ToPropertyKey conversion, applied when an arbitrary value is
used to index an object (`this.packageItemLookup[itemId]`). -/
def toPropKey : JSVal → String
  | .null => "null"
  | .undefined => "undefined"
  | .bool b => cond b "true" "false"
  | .num n => toString n
  | .str s => s
  | .arr xs => toPropKeyJoin xs
  | .obj _ => "[object Object]"

/-- JS `Array.prototype.toString`: the elements converted and joined by commas. -/
def toPropKeyJoin : List JSVal → String
  | [] => ""
  | [x] => toPropKeyElem x
  | x :: xs => toPropKeyElem x ++ "," ++ toPropKeyJoin xs

/-- Element conversion inside `Array.prototype.join`: `null` and `undefined`
become the empty string, everything else its ToString. -/
def toPropKeyElem : JSVal → String
  | .null => ""
  | .undefined => ""
  | .bool b => cond b "true" "false"
  | .num n => toString n
  | .str s => s
  | .arr xs => toPropKeyJoin xs
  | .obj _ => "[object Object]"

end

/-! ## A model of `JSON.parse` / `JSON.stringify`

The engine serializes boards with `JSON.stringify` and reads them back with
`JSON.parse`.  The model below covers JSON documents whose numbers are
integers — every document the engine produces, and every concrete document the
theorems below evaluate. -/

/-- The character `{`. -/
def lbraceChar : Char := Char.ofNat 123

/-- The character `}`. -/
def rbraceChar : Char := Char.ofNat 125

/-- Skip JSON whitespace. -/
def skipWs : List Char → List Char
  | c :: cs => if c = ' ' ∨ c = '\t' ∨ c = '\n' ∨ c = '\r' then skipWs cs else c :: cs
  | [] => []

/-- Parse the body of a JSON string after the opening quote, handling the
escape sequences `JSON.stringify` emits. -/
def pStringBody : List Char → Option (String × List Char)
  | [] => none
  | '\\' :: e :: rest =>
    ((match e with
      | '"' => some '"'
      | '\\' => some '\\'
      | '/' => some '/'
      | 'n' => some '\n'
      | 't' => some '\t'
      | 'r' => some '\r'
      | 'b' => some (Char.ofNat 8)
      | 'f' => some (Char.ofNat 12)
      | _ => none : Option Char)).bind fun c =>
    (pStringBody rest).map fun p => (String.singleton c ++ p.1, p.2)
  | '"' :: rest => some ("", rest)
  | c :: rest => (pStringBody rest).map fun p => (String.singleton c ++ p.1, p.2)

/-- Parse a nonempty run of decimal digits. -/
def pNat (cs : List Char) : Option (Nat × List Char) :=
  let ds := cs.takeWhile Char.isDigit
  if ds.isEmpty then none
  else some (ds.foldl (fun n c => 10 * n + (c.toNat - 48)) 0, cs.dropWhile Char.isDigit)

mutual

/-- Parse one JSON value; `fuel` bounds the nesting depth. -/
def pVal : Nat → List Char → Option (JSVal × List Char)
  | 0, _ => none
  | fuel + 1, cs0 =>
    match skipWs cs0 with
    | [] => none
    | 'n' :: 'u' :: 'l' :: 'l' :: r => some (.null, r)
    | 't' :: 'r' :: 'u' :: 'e' :: r => some (.bool true, r)
    | 'f' :: 'a' :: 'l' :: 's' :: 'e' :: r => some (.bool false, r)
    | '"' :: r => (pStringBody r).map fun p => (.str p.1, p.2)
    | '[' :: r =>
      (match skipWs r with
        | ']' :: r2 => some (.arr [], r2)
        | r2 =>
          (pVal fuel r2).bind fun p =>
          (pListTail fuel p.2).map fun q => (.arr (p.1 :: q.1), q.2))
    | c :: r =>
      if c = lbraceChar then
        match skipWs r with
        | [] => none
        | c2 :: r2 =>
          if c2 = rbraceChar then some (.obj [], r2)
          else
            (pMember fuel (c2 :: r2)).bind fun p =>
            (pObjTail fuel p.2).map fun q => (.obj (p.1 :: q.1), q.2)
      else if c = '-' then
        (pNat r).map fun p => (.num (-(p.1 : Int)), p.2)
      else if c.isDigit then
        (pNat (c :: r)).map fun p => (.num (p.1 : Int), p.2)
      else none

/-- Parse the remainder of a JSON array after one element. -/
def pListTail : Nat → List Char → Option (List JSVal × List Char)
  | 0, _ => none
  | fuel + 1, cs =>
    match skipWs cs with
    | ',' :: r =>
      (pVal fuel r).bind fun p =>
      (pListTail fuel p.2).map fun q => (p.1 :: q.1, q.2)
    | ']' :: r => some ([], r)
    | _ => none

/-- Parse one `"key": value` member of a JSON object. -/
def pMember : Nat → List Char → Option ((String × JSVal) × List Char)
  | 0, _ => none
  | fuel + 1, cs =>
    match skipWs cs with
    | '"' :: r =>
      (pStringBody r).bind fun p =>
      (match skipWs p.2 with
        | ':' :: r2 =>
          (pVal fuel r2).map fun q => ((p.1, q.1), q.2)
        | _ => none)
    | _ => none

/-- Parse the remainder of a JSON object after one member. -/
def pObjTail : Nat → List Char → Option (List (String × JSVal) × List Char)
  | 0, _ => none
  | fuel + 1, cs =>
    match skipWs cs with
    | ',' :: r =>
      (pMember fuel r).bind fun p =>
      (pObjTail fuel p.2).map fun q => (p.1 :: q.1, q.2)
    | c :: r => if c = rbraceChar then some ([], r) else none
    | [] => none

end

/-- Model of `JSON.parse` (on documents with integer numbers): `none` exactly
where `JSON.parse` throws a SyntaxError. -/
def jsonParse (s : String) : Option JSVal :=
  match pVal (s.length + 1) s.toList with
  | some (v, r) => if skipWs r = [] then some v else none
  | none => none

/-! ## The TierCortex state codec and item resolver -/

/-- The minimal item shape carried by the URL token, from `TierCortex`
(`interface SimplifiedItem`): `i` is the id, `c` the content. -/
structure SimplifiedItem where
  i : String
  c : String
deriving DecidableEq, Repr

/-- The minimal tier shape carried by the URL token, from `TierCortex`
(`interface SimplifiedTier`): `i` is the id, `n` the name, `t` the items. -/
structure SimplifiedTier where
  i : String
  n : String
  t : List SimplifiedItem
deriving DecidableEq, Repr

/-- The projection of a board to its minimal shape, from
`TierCortex.encodeTierStateForURL` (the `tiers.map (...)` step). -/
def simplifyTiers (tiers : List Tier) : List SimplifiedTier :=
  tiers.map fun tier =>
    ⟨tier.id, tier.name, tier.items.map fun item => ⟨item.id, item.content⟩⟩

/-- JSON string escaping as `JSON.stringify` performs it, for the escape
sequences the engine can produce. -/
def quoteJsonString (s : String) : String :=
  "\"" ++ String.join (s.toList.map escC) ++ "\""
where
  escC (c : Char) : String :=
    if c = '"' then "\\\""
    else if c = '\\' then "\\\\"
    else if c = '\n' then "\\n"
    else if c = '\t' then "\\t"
    else if c = '\r' then "\\r"
    else String.singleton c

/-- Model of `JSON.stringify` of one simplified item: field order `i`, `c` as in the
object literal of `encodeTierStateForURL`. -/
def stringifySimplifiedItem (it : SimplifiedItem) : String :=
  "\x7b\"i\":" ++ quoteJsonString it.i ++ ",\"c\":" ++ quoteJsonString it.c ++ "\x7d"

/-- Model of `JSON.stringify` of one simplified tier: field order `i`, `n`, `t`. -/
def stringifySimplifiedTier (st : SimplifiedTier) : String :=
  "\x7b\"i\":" ++ quoteJsonString st.i ++ ",\"n\":" ++ quoteJsonString st.n ++
    ",\"t\":[" ++ String.intercalate "," (st.t.map stringifySimplifiedItem) ++ "]\x7d"

/-- Model of `JSON.stringify` of the simplified tier array. -/
def stringifySimplifiedTiers (sts : List SimplifiedTier) : String :=
  "[" ++ String.intercalate "," (sts.map stringifySimplifiedTier) ++ "]"

/-- The JSON value denoted by one simplified item. -/
def simplifiedItemToJSVal (it : SimplifiedItem) : JSVal :=
  .obj [("i", .str it.i), ("c", .str it.c)]

/-- The JSON value denoted by one simplified tier. -/
def simplifiedTierToJSVal (st : SimplifiedTier) : JSVal :=
  .obj [("i", .str st.i), ("n", .str st.n), ("t", .arr (st.t.map simplifiedItemToJSVal))]

/-- The JSON value denoted by the simplified tier array. -/
def simplifiedTiersToJSVal (sts : List SimplifiedTier) : JSVal :=
  .arr (sts.map simplifiedTierToJSVal)

/-- The part of a filename before its first dot:
`image.filename.split('.')[0]` as `initializePackageItemLookup` computes it. -/
def splitFirstDot (filename : String) : String :=
  String.mk (filename.toList.takeWhile (· ≠ '.'))

/-- The content of a catalog entry:
`image.label || image.filename.split('.')[0]`.  The JS `||` takes the label
only when it is truthy, so an absent or empty-string label falls back to the
part of the filename before its first dot. -/
def catalogContent (image : ImageEntry) : String :=
  match image.label with
  | some l => if l = "" then splitFirstDot image.filename else l
  | none => splitFirstDot image.filename

/-- The key/item pairs assigned by `TierCortex.initializePackageItemLookup`
(the name is shortened in this embedding), in iteration order: for every
package and every image, the key `` `${packageName}-${image.filename}` `` and
an item with that id, the catalog content, and the image path
`` `/images/${packageName}/${image.filename}` ``. -/
def catalogPairs (cfg : ImageSetCfg) : List (String × Item) :=
  cfg.flatMap fun pkg =>
    pkg.2.map fun image =>
      (pkg.1 ++ "-" ++ image.filename,
        ⟨pkg.1 ++ "-" ++ image.filename, catalogContent image,
          some ("/images/" ++ pkg.1 ++ "/" ++ image.filename)⟩)

/-- The catalog lookup built at startup by
`TierCortex.initializePackageItemLookup`: the catalog pairs assigned into a JS
object one by one. -/
def buildPackageItemLookup (cfg : ImageSetCfg) : List (String × Item) :=
  jsMapOfList (catalogPairs cfg)

/-- The custom-items map as `TierCortex.initializeCustomItemsMap` builds it
(the name is shortened here): each stored record is inserted under its own `i`
field. -/
def buildCustomItemsMap (stored : List StoredCustomItem) : List (String × StoredCustomItem) :=
  jsMapOfList (stored.map fun r => (r.i, r))

/-- The function `TierCortex.createPlaceholderItem`: an item with the given id and content
and the placeholder image resolved to an absolute URL.  `absUrl` stands for
`getAbsoluteUrl`, i.e. the JS `new URL(path, baseUrl).toString()` resolution,
which this embedding keeps abstract. -/
def createPlaceholderItem (absUrl : String → String) (itemId content : String) : Item :=
  { id := itemId, content := content, imageUrl := some (absUrl "/placeholder-image.jpg") }

/-- A resolved item as the decoder produces it in untyped JS: the field values
are JS values because `resolveItem` can receive non-string arguments through
the unchecked cast in `decodeTierStateFromURL`. -/
structure JSItem where
  id : JSVal
  content : JSVal
  imageUrl : JSVal
deriving DecidableEq

/-- A decoded tier as the decoder produces it in untyped JS. -/
structure JSTier where
  id : JSVal
  name : JSVal
  items : List JSItem
deriving DecidableEq

/-- Injection of an optional string field into `JSVal` (`undefined` when the
field is absent). -/
def jsOfOptStr : Option String → JSVal
  | some s => .str s
  | none => .undefined

/-- The method `TierCortex.resolveItem`, on untyped arguments as the decoder calls it:
1. the catalog lookup (`packageItemLookup[itemId]`, the index converted by
   ToPropertyKey) wins when it has the id;
2. otherwise, on the client only, the custom-item store: a hit returns the
   record's id and imageData but the caller-supplied `content`;
3. otherwise a placeholder item with the given id and content. -/
def resolveItemJS (lookup : List (String × Item))
    (custom : List (String × StoredCustomItem)) (isServer : Bool)
    (absUrl : String → String) (itemId content : JSVal) : JSItem :=
  match assocFind (toPropKey itemId) lookup with
  | some packageItem => ⟨.str packageItem.id, .str packageItem.content, jsOfOptStr packageItem.imageUrl⟩
  | none =>
    if isServer then ⟨itemId, content, .str (absUrl "/placeholder-image.jpg")⟩
    else
      match itemId with
      | .str key =>
        (match assocFind key custom with
          | some customItem => ⟨.str customItem.i, content, .str customItem.d⟩
          | none => ⟨itemId, content, .str (absUrl "/placeholder-image.jpg")⟩)
      | _ => ⟨itemId, content, .str (absUrl "/placeholder-image.jpg")⟩

/-- The method `TierCortex.encodeTierStateForURL`: project the board to its minimal
shape, `JSON.stringify` it, and compress the text.  `stringify` and `compress`
stand for `JSON.stringify` and `LZString.compressToEncodedURIComponent`, kept
abstract (pointwise contracts appear as theorem hypotheses). -/
def encodeTierStateForURL (stringify : List SimplifiedTier → String)
    (compress : String → String) (tiers : List Tier) : String :=
  compress (stringify (simplifyTiers tiers))

/-- The inner item mapping of `decodeTierStateFromURL`
(`simplifiedTier.t.map(item => this.resolveItem(item.i, item.c))`): read the
`i` and `c` members — TypeErrors propagate — and resolve. -/
def decodeItemJS (lookup : List (String × Item))
    (custom : List (String × StoredCustomItem)) (isServer : Bool)
    (absUrl : String → String) (iv : JSVal) : Except Unit JSItem := do
  let ii ← getField iv "i"
  let cc ← getField iv "c"
  pure (resolveItemJS lookup custom isServer absUrl ii cc)

/-- The per-tier mapping of `decodeTierStateFromURL`: read `i`, `n` and `t`
(the object literal evaluates them in this order) and map the items of `t`. -/
def decodeTierJS (lookup : List (String × Item))
    (custom : List (String × StoredCustomItem)) (isServer : Bool)
    (absUrl : String → String) (tv : JSVal) : Except Unit JSTier := do
  let i ← getField tv "i"
  let n ← getField tv "n"
  let t ← getField tv "t"
  let items ← jsArrayMap (decodeItemJS lookup custom isServer absUrl) t
  pure (⟨i, n, items⟩ : JSTier)

/-- The body of `decodeTierStateFromURL` after a successful parse: the JS
mapping `simplifiedTiers.map (...)` with its member accesses and inner map,
each of which can raise a TypeError on ill-shaped values. -/
def decodeTiersFromJSVal (lookup : List (String × Item))
    (custom : List (String × StoredCustomItem)) (isServer : Bool)
    (absUrl : String → String) (v : JSVal) : Except Unit (List JSTier) :=
  jsArrayMap (decodeTierJS lookup custom isServer absUrl) v

/-- The method `TierCortex.decodeTierStateFromURL`: decompress, reject a falsy (empty or
failed) decompression, `JSON.parse` the text, map the parsed value to tiers
resolving each item, and return `null` (`none`) when any step throws.
`decompress` stands for `LZString.decompressFromEncodedURIComponent` (`none`
models a `null` return) and `parse` for `JSON.parse` (`none` models a thrown
SyntaxError), both kept abstract. -/
def decodeTierStateFromURL (decompress : String → Option String)
    (parse : String → Option JSVal) (lookup : List (String × Item))
    (custom : List (String × StoredCustomItem)) (isServer : Bool)
    (absUrl : String → String) (encodedState : String) : Option (List JSTier) :=
  match decompress encodedState with
  | none => none
  | some jsonString =>
    if jsonString = "" then none
    else
      match parse jsonString with
      | none => none
      | some v =>
        match decodeTiersFromJSVal lookup custom isServer absUrl v with
        | .ok tiers => some tiers
        | .error _ => none

/-! ## Templates and `getInitialTiers` -/

/-- The `'3rows'` template preset from `src/models/Tier.ts`. -/
def tierTemplate3rows : List Tier :=
  [⟨"tier-s", "S", [], some .left, some "S"⟩,
   ⟨"tier-a", "A", [], some .left, some "A"⟩,
   ⟨"tier-b", "B", [], some .left, some "B"⟩]

/-- The `'5rows'` template preset from `src/models/Tier.ts`. -/
def tierTemplate5rows : List Tier :=
  [⟨"tier-s", "S", [], some .left, some "S"⟩,
   ⟨"tier-a", "A", [], some .left, some "A"⟩,
   ⟨"tier-b", "B", [], some .left, some "B"⟩,
   ⟨"tier-c", "C", [], some .left, some "C"⟩,
   ⟨"tier-f", "F", [], some .left, some "F"⟩]

/-- The `'7rows'` template preset from `src/models/Tier.ts`. -/
def tierTemplate7rows : List Tier :=
  [⟨"tier-ss", "SS", [], some .left, some "SS"⟩,
   ⟨"tier-s", "S", [], some .left, some "S"⟩,
   ⟨"tier-a", "A", [], some .left, some "A"⟩,
   ⟨"tier-b", "B", [], some .left, some "B"⟩,
   ⟨"tier-c", "C", [], some .left, some "C"⟩,
   ⟨"tier-d", "D", [], some .left, some "D"⟩,
   ⟨"tier-f", "F", [], some .left, some "F"⟩]

/-- The constant `DEFAULT_TIER_TEMPLATE = tierTemplates['5rows']` from `src/models/Tier.ts`. -/
def DEFAULT_TIER_TEMPLATE : List Tier := tierTemplate5rows

/-- Replace the last element of a list, if any: the effect of
`xs[xs.length - 1] = v` style updates on a nonempty JS array. -/
def updateLast (f : Tier → Tier) : List Tier → List Tier
  | [] => []
  | [t] => [f t]
  | t :: ts => t :: updateLast f ts

/-- The method `TierCortex.getInitialTiers`.  The JS function reads the module-level
array `DEFAULT_TIER_TEMPLATE`, spreads it (`[...DEFAULT_TIER_TEMPLATE]`) —
a shallow copy that still shares the tier objects — and then assigns
`initialTiers[lastTierIndex].items`, which mutates the shared last tier
object.  The embedding therefore passes the current contents of the module
binding in as `templateState` and returns the (possibly mutated) contents
alongside the result.  `decodeFn` stands for `this.decodeTierStateFromURL`;
`if (initialState)` treats the empty string as falsy. -/
def getInitialTiers (lookup : List (String × Item)) (absUrl : String → String)
    (decodeFn : String → Option (List Tier)) (templateState : List Tier)
    (initialState : Option String) (initialItemSet : Option ItemSet) :
    List Tier × List Tier :=
  let decoded : Option (List Tier) :=
    match initialState with
    | some s => if s = "" then none else decodeFn s
    | none => none
  match decoded with
  | some decodedState => (decodedState, templateState)
  | none =>
    match initialItemSet with
    | some itemSet =>
      let newTemplate := updateLast
        (fun t => { t with items := itemSet.images.map fun filename =>
            let itemId := itemSet.packageName ++ "-" ++ filename
            (assocFind itemId lookup).getD (createPlaceholderItem absUrl itemId filename) })
        templateState
      (newTemplate, newTemplate)
    | none => (templateState, templateState)

/-! ## The TierListManager reconciler -/

/-- The state `TierListManager` keeps between events: the current `tiers` and
the `previousTiersRef` checkpoint (initialized to the initial tiers). -/
structure ManagerState where
  tiers : List Tier
  previous : List Tier
deriving DecidableEq, Repr

/-- The callback `handleTiersUpdate` (TierListManager.tsx lines 49–54): sets
`previousTiersRef.current = updatedTiers` and then `setTiers(updatedTiers)`
(the router URL sync is outside this model). -/
def handleTiersUpdate (_s : ManagerState) (updatedTiers : List Tier) : ManagerState :=
  ⟨updatedTiers, updatedTiers⟩

/-- The callback `deleteAllItems`: saves the current tiers in `previousTiersRef`, then
calls `handleTiersUpdate` with every tier emptied. -/
def deleteAllItems (s : ManagerState) : ManagerState :=
  let checkpointed : ManagerState := ⟨s.tiers, s.tiers⟩
  handleTiersUpdate checkpointed (checkpointed.tiers.map fun tier => { tier with items := [] })

/-- The callback `undoDelete` (identical to `undoReset`): calls `handleTiersUpdate` with
`previousTiersRef.current`. -/
def undoDelete (s : ManagerState) : ManagerState :=
  handleTiersUpdate s s.previous

/-- The board transformation `resetItems` computes (TierListManager.tsx lines
132–154): flatten all items sorted by `content.localeCompare`, empty every
tier, reuse the last tier when its id is `"uncategorized"` and otherwise
append a fresh one, and give that sink tier the sorted items.  (Its undo
checkpoint handling is part of the `ManagerState` model above.) -/
def resetItems (tiers : List Tier) (labelPosition : LabelPosition) : List Tier :=
  let allItems := jsSortBy (fun a b => localeCompare a.content b.content)
    (tiers.flatMap (·.items))
  let resetTiers := tiers.map fun tier => { tier with items := ([] : List Item) }
  match resetTiers.getLast? with
  | some lastTier =>
    if lastTier.id = "uncategorized" then
      updateLast (fun t => { t with items := allItems }) resetTiers
    else
      resetTiers ++ [⟨"uncategorized", "", allItems, some labelPosition, none⟩]
  | none =>
    [⟨"uncategorized", "", allItems, some labelPosition, none⟩]

/-- The callback `handleItemsCreate` (TierListManager.tsx lines 62–75): filter out incoming
items whose id or content already occurs anywhere on the board, and append the
survivors to the last tier.  On an empty board the JS code would throw
(`updatedTiers[updatedTiers.length - 1].items` on `undefined`), modelled as
`none`. -/
def handleItemsCreate (tiers : List Tier) (newItems : List Item) : Option (List Tier) :=
  match tiers with
  | [] => none
  | _ :: _ =>
    let uniqueNewItems := newItems.filter fun newItem =>
      !(tiers.any fun tier => tier.items.any fun item =>
        item.id == newItem.id || item.content == newItem.content)
    some (updateLast (fun t => { t with items := t.items ++ uniqueNewItems }) tiers)

/-- The origin map of `handleTemplateChange`:
`new Map(tiers.flatMap(tier => tier.items.map(item => [item.id, {item, tierId: tier.id}])))`.
Duplicate ids keep the position of the first occurrence with the value of the
last (JS `Map` semantics). -/
def allItemsMap (tiers : List Tier) : List (String × (Item × String)) :=
  jsMapOfList (tiers.flatMap fun tier => tier.items.map fun item => (item.id, (item, tier.id)))

/-- Append an item to the first tier whose id matches, if any: the
`newTiers.find(...)` followed by `targetTier.items.push(item)` of
`handleTemplateChange`. -/
def pushToTier (tierId : String) (item : Item) : List Tier → Option (List Tier)
  | [] => none
  | t :: ts =>
    if t.id = tierId then some ({ t with items := t.items ++ [item] } :: ts)
    else (pushToTier tierId item ts).map (t :: ·)

/-- Distribution of one origin-map entry in `handleTemplateChange`: into the
tier matching the origin tier id, else into a tier with id `"uncategorized"`,
else into a freshly created `"uncategorized"` tier appended to the board. -/
def placeEntry (labelPosition : LabelPosition) (acc : List Tier)
    (e : String × (Item × String)) : List Tier :=
  match pushToTier e.2.2 e.2.1 acc with
  | some acc2 => acc2
  | none =>
    match pushToTier "uncategorized" e.2.1 acc with
    | some acc2 => acc2
    | none =>
      acc ++ [⟨"uncategorized", "", [e.2.1], some labelPosition, none⟩]

/-- The template instantiation step of `handleTemplateChange`:
`newTemplate.map(templateTier => ({...templateTier, items: [], labelPosition}))`. -/
def instantiateTemplate (newTemplate : List Tier) (labelPosition : LabelPosition) : List Tier :=
  newTemplate.map fun templateTier =>
    { templateTier with items := ([] : List Item), labelPosition := some labelPosition }

/-- The callback `handleTemplateChange` (TierListManager.tsx lines 95–130): instantiate the
template's tiers with empty items and the current label position, then
distribute every entry of the origin map. -/
def handleTemplateChange (tiers newTemplate : List Tier)
    (labelPosition : LabelPosition) : List Tier :=
  (allItemsMap tiers).foldl (placeEntry labelPosition) (instantiateTemplate newTemplate labelPosition)

/-- All items of a board, in tier order (`tiers.flatMap(tier => tier.items)`). -/
def flatItems (tiers : List Tier) : List Item :=
  tiers.flatMap (·.items)

/-- The ids of all items of a board, in order. -/
def flatItemIds (tiers : List Tier) : List String :=
  (flatItems tiers).map Item.id

/-- Modelled from the spec: "the filename with its extension stripped" — the
filename without its final dot-suffix (unchanged when it has no dot).  Used
only to state what claim C9 asserts about catalog content. -/
def specStripExtension (filename : String) : String :=
  if filename.toList.contains '.' then
    String.mk (((filename.toList.reverse.dropWhile (· ≠ '.')).drop 1).reverse)
  else filename

/-- Whether the board's last tier has id `"uncategorized"` (the reuse test of
`resetItems`). -/
def lastIsUncategorized (tiers : List Tier) : Bool :=
  match tiers.getLast? with
  | some t => t.id == "uncategorized"
  | none => false

/-- Modelled from the spec: "case-sensitive lexicographic comparison" — plain
code-point comparison of the strings.  Used only to state what claim C4
asserts about the sort order. -/
def specLexCompare (a b : String) : Int :=
  match cmpList compare a.toList b.toList with
  | .lt => -1
  | .gt => 1
  | .eq => 0

/-- The observable data the round-trip claim compares on the decoded side:
tier id, tier name, and the (id, content) pairs of the items in order. -/
def jsTierSig (t : JSTier) : JSVal × JSVal × List (JSVal × JSVal) :=
  (t.id, t.name, t.items.map fun it => (it.id, it.content))

/-- The same observable data computed from an input board. -/
def tierSig (t : Tier) : JSVal × JSVal × List (JSVal × JSVal) :=
  (.str t.id, .str t.name, t.items.map fun it => (.str it.id, .str it.content))

/-- The origin-map entries whose origin tier id does not occur among the new
template's tier ids: the orphans of a reconciliation pass. -/
def orphanEntries (tiers newTemplate : List Tier) : List (String × (Item × String)) :=
  (allItemsMap tiers).filter fun e => !((newTemplate.map Tier.id).contains e.2.2)

/-- A sink segment for the reconciliation proof: empty while no orphan has
been placed, otherwise the single created `"uncategorized"` tier holding the
orphans placed so far. -/
def sinkList (lp : LabelPosition) : Option (List Item) → List Tier
  | none => []
  | some os => [⟨"uncategorized", "", os, some lp, none⟩]

/-- One step of the orphan accumulator: an entry whose origin id is among
`ids` is placed in a template tier and leaves the sink alone; any other
entry's item is appended to the sink (creating it if necessary). -/
def orphStep (ids : List String) (s : Option (List Item))
    (e : String × (Item × String)) : Option (List Item) :=
  if ids.contains e.2.2 then s else some (s.getD [] ++ [e.2.1])

/-- The orphan accumulator over a list of origin-map entries. -/
def orphAcc (ids : List String) (s : Option (List Item))
    (es : List (String × (Item × String))) : Option (List Item) :=
  es.foldl (orphStep ids) s

/-! ## General lemmas about the runtime models -/

theorem assocFind_mem_of_eq_some {m : List (String × α)} {k : String} {v : α}
    (h : assocFind k m = some v) : (k, v) ∈ m := by
  induction m with
  | nil => simp [assocFind] at h
  | cons p ps ih =>
    by_cases hp : p.1 = k
    · simp only [assocFind] at h
      rw [if_pos hp] at h
      cases h
      rw [← hp]
      simp
    · simp only [assocFind] at h
      rw [if_neg hp] at h
      exact List.mem_cons_of_mem _ (ih h)

theorem jsSet_mem_prop {m : List (String × α)} {k : String} {v : α}
    (P : String × α → Prop) (hm : ∀ p ∈ m, P p) (hkv : P (k, v)) :
    ∀ p ∈ jsSet m k v, P p := by
  intro p hp
  unfold jsSet at hp
  by_cases hk : k ∈ keysOf m
  · rw [if_pos hk] at hp
    rcases List.mem_map.mp hp with ⟨q, hq, hqeq⟩
    by_cases hq1 : q.1 = k
    · rw [if_pos hq1] at hqeq
      exact hqeq ▸ hkv
    · rw [if_neg hq1] at hqeq
      exact hqeq ▸ hm q hq
  · rw [if_neg hk] at hp
    rcases List.mem_append.mp hp with h | h
    · exact hm p h
    · rcases List.mem_singleton.mp h with rfl
      exact hkv

theorem foldlJsSet_mem_prop (P : String × α → Prop) :
    ∀ (l m : List (String × α)), (∀ p ∈ m, P p) → (∀ p ∈ l, P p) →
      ∀ p ∈ l.foldl (fun m p => jsSet m p.1 p.2) m, P p := by
  intro l
  induction l with
  | nil => intro m hm _ p hp; exact hm p hp
  | cons q l ih =>
    intro m hm hl p hp
    simp only [List.foldl_cons] at hp
    exact ih _ (jsSet_mem_prop P hm (hl q (by simp))) (fun r hr => hl r (by simp [hr])) p hp

theorem jsMapOfList_mem_prop {l : List (String × α)} (P : String × α → Prop)
    (hl : ∀ p ∈ l, P p) : ∀ p ∈ jsMapOfList l, P p :=
  foldlJsSet_mem_prop P l [] (by simp) hl

theorem keysOf_jsSet (m : List (String × α)) (k : String) (v : α) :
    keysOf (jsSet m k v) = if k ∈ keysOf m then keysOf m else keysOf m ++ [k] := by
  unfold jsSet
  by_cases hk : k ∈ keysOf m
  · rw [if_pos hk, if_pos hk]
    unfold keysOf
    rw [List.map_map]
    refine List.map_congr_left ?_
    intro p _
    by_cases hp : p.1 = k
    · simp [hp]
    · simp [hp]
  · rw [if_neg hk, if_neg hk]
    simp [keysOf]

theorem foldlJsSet_keys_nodup :
    ∀ (l m : List (String × α)), (keysOf m).Nodup →
      (keysOf (l.foldl (fun m p => jsSet m p.1 p.2) m)).Nodup := by
  intro l
  induction l with
  | nil => intro m hm; exact hm
  | cons q l ih =>
    intro m hm
    simp only [List.foldl_cons]
    refine ih _ ?_
    rw [keysOf_jsSet]
    by_cases hk : q.1 ∈ keysOf m
    · rw [if_pos hk]; exact hm
    · rw [if_neg hk]
      refine List.Nodup.append hm (List.nodup_singleton _) ?_
      intro a ha hb
      have : a = q.1 := by simpa using hb
      exact hk (this ▸ ha)

theorem jsMapOfList_keys_nodup (l : List (String × α)) :
    (keysOf (jsMapOfList l)).Nodup :=
  foldlJsSet_keys_nodup l [] (by simp [keysOf])

theorem foldlJsSet_append :
    ∀ (l m : List (String × α)), (keysOf (m ++ l)).Nodup →
      l.foldl (fun m p => jsSet m p.1 p.2) m = m ++ l := by
  intro l
  induction l with
  | nil => intro m _; simp
  | cons q l ih =>
    intro m hm
    have hq : q.1 ∉ keysOf m := by
      intro hmem
      have hd := (List.nodup_append.mp (by simpa [keysOf] using hm)).2.2
      exact hd hmem (by simp)
    have step : jsSet m q.1 q.2 = m ++ [q] := by
      unfold jsSet
      rw [if_neg hq]
    simp only [List.foldl_cons, step]
    rw [ih (m ++ [q]) (by simpa [keysOf, List.append_assoc] using hm)]
    simp

theorem jsMapOfList_eq_self_of_nodup {l : List (String × α)}
    (h : (keysOf l).Nodup) : jsMapOfList l = l :=
  foldlJsSet_append l [] (by simpa [keysOf] using h)

theorem assocFind_of_mem_nodup {m : List (String × α)} {k : String} {v : α}
    (hnd : (keysOf m).Nodup) (hmem : (k, v) ∈ m) : assocFind k m = some v := by
  induction m with
  | nil => simp at hmem
  | cons p ps ih =>
    rcases List.mem_cons.mp hmem with h | h
    · cases h
      simp [assocFind]
    · have htl : (keysOf ps).Nodup := (List.nodup_cons.mp (by simpa [keysOf] using hnd)).2
      have hk : p.1 ≠ k := by
        intro hpk
        have hkmem : k ∈ keysOf ps := List.mem_map.mpr ⟨(k, v), h, rfl⟩
        exact (List.nodup_cons.mp (by simpa [keysOf] using hnd)).1 (hpk ▸ hkmem)
      simp only [assocFind]
      rw [if_neg hk]
      exact ih htl h

theorem updateLast_concat (f : Tier → Tier) : ∀ (l : List Tier) (a : Tier),
    updateLast f (l ++ [a]) = l ++ [f a]
  | [], _ => rfl
  | [t], a => rfl
  | t :: u :: us, a => by
    have ih := updateLast_concat f (u :: us) a
    simp only [List.cons_append] at ih ⊢
    simp only [updateLast]
    rw [ih]

theorem updateLast_getLast? {l : List Tier} (f : Tier → Tier) (h : l ≠ []) :
    (updateLast f l).getLast? = l.getLast?.map f := by
  rcases List.eq_nil_or_concat l with rfl | ⟨l2, a, rfl⟩
  · exact absurd rfl h
  · rw [List.concat_eq_append, updateLast_concat, List.getLast?_concat, List.getLast?_concat]
    rfl

theorem updateLast_dropLast (f : Tier → Tier) (l : List Tier) :
    (updateLast f l).dropLast = l.dropLast := by
  rcases List.eq_nil_or_concat l with rfl | ⟨l2, a, rfl⟩
  · rfl
  · rw [List.concat_eq_append, updateLast_concat, List.dropLast_concat, List.dropLast_concat]

theorem updateLast_map_id (f : Tier → Tier) (hf : ∀ t, (f t).id = t.id)
    (l : List Tier) : (updateLast f l).map Tier.id = l.map Tier.id := by
  rcases List.eq_nil_or_concat l with rfl | ⟨l2, a, rfl⟩
  · rfl
  · rw [List.concat_eq_append, updateLast_concat]
    simp [hf]

theorem updateLast_setItems_map_id (xs : List Item) (l : List Tier) :
    (updateLast (fun t => { t with items := xs }) l).map Tier.id = l.map Tier.id :=
  updateLast_map_id (fun t => { t with items := xs }) (fun _ => rfl) l

/-! ## Reconciliation lemmas (C5, C6) -/

theorem pushToTier_of_mem {tid : String} (it : Item) :
    ∀ {A : List Tier}, tid ∈ A.map Tier.id →
      ∃ A2, pushToTier tid it A = some A2 ∧ A2.map Tier.id = A.map Tier.id := by
  intro A
  induction A with
  | nil => intro h; simp at h
  | cons t ts ih =>
    intro h
    by_cases ht : t.id = tid
    · refine ⟨{ t with items := t.items ++ [it] } :: ts, ?_, by simp⟩
      simp only [pushToTier]
      rw [if_pos ht]
    · have hmem : tid ∈ ts.map Tier.id := by
        rcases List.mem_map.mp h with ⟨u, hu, hid⟩
        rcases List.mem_cons.mp hu with rfl | hu2
        · exact absurd hid ht
        · exact List.mem_map.mpr ⟨u, hu2, hid⟩
      obtain ⟨ts2, hp, hids⟩ := ih hmem
      refine ⟨t :: ts2, ?_, by simpa using hids⟩
      simp only [pushToTier]
      rw [if_neg ht, hp]
      rfl

theorem pushToTier_append_of_not_mem {tid : String} (it : Item) :
    ∀ {A : List Tier} (B : List Tier), tid ∉ A.map Tier.id →
      pushToTier tid it (A ++ B) = (pushToTier tid it B).map (A ++ ·) := by
  intro A
  induction A with
  | nil =>
    intro B _
    rcases hB : pushToTier tid it B with _ | ts2 <;> simp [hB]
  | cons t ts ih =>
    intro B h
    have ht : t.id ≠ tid := by
      intro he
      exact h (by simp [he])
    have hts : tid ∉ ts.map Tier.id := by
      intro hm
      exact h (by simp [hm])
    rw [List.cons_append]
    simp only [pushToTier]
    rw [if_neg ht, ih B hts]
    rcases hB : pushToTier tid it B with _ | ts2 <;> simp [hB]

theorem pushToTier_append_of_mem {tid : String} (it : Item) {A : List Tier} (B : List Tier)
    (h : tid ∈ A.map Tier.id) :
    ∃ A2, pushToTier tid it (A ++ B) = some (A2 ++ B) ∧ A2.map Tier.id = A.map Tier.id := by
  induction A with
  | nil => simp at h
  | cons t ts ih =>
    by_cases ht : t.id = tid
    · refine ⟨{ t with items := t.items ++ [it] } :: ts, ?_, by simp⟩
      rw [List.cons_append]
      simp only [pushToTier]
      rw [if_pos ht]
      rfl
    · have hmem : tid ∈ ts.map Tier.id := by
        rcases List.mem_map.mp h with ⟨u, hu, hid⟩
        rcases List.mem_cons.mp hu with rfl | hu2
        · exact absurd hid ht
        · exact List.mem_map.mpr ⟨u, hu2, hid⟩
      obtain ⟨ts2, hp, hids⟩ := ih hmem
      refine ⟨t :: ts2, ?_, by simpa using hids⟩
      rw [List.cons_append]
      simp only [pushToTier]
      rw [if_neg ht, hp]
      rfl

theorem placeEntry_into_template (lp : LabelPosition) {A : List Tier} (B : List Tier)
    (e : String × (Item × String)) (hmem : e.2.2 ∈ A.map Tier.id) :
    ∃ A2, placeEntry lp (A ++ B) e = A2 ++ B ∧ A2.map Tier.id = A.map Tier.id := by
  obtain ⟨A2, hp, hids⟩ := pushToTier_append_of_mem e.2.1 B hmem
  refine ⟨A2, ?_, hids⟩
  unfold placeEntry
  rw [hp]

theorem placeEntry_orphan (lp : LabelPosition) {A : List Tier} {s : Option (List Item)}
    (e : String × (Item × String)) (hmem : e.2.2 ∉ A.map Tier.id)
    (hu : "uncategorized" ∉ A.map Tier.id) :
    placeEntry lp (A ++ sinkList lp s) e
      = A ++ sinkList lp (some (s.getD [] ++ [e.2.1])) := by
  unfold placeEntry
  rw [pushToTier_append_of_not_mem e.2.1 (sinkList lp s) hmem]
  cases s with
  | none =>
    rw [pushToTier_append_of_not_mem e.2.1 (sinkList lp none) hu]
    simp [sinkList, pushToTier]
  | some os =>
    by_cases he : e.2.2 = "uncategorized"
    · have hp : pushToTier e.2.2 e.2.1 (sinkList lp (some os))
          = some [⟨"uncategorized", "", os ++ [e.2.1], some lp, none⟩] := by
        unfold sinkList pushToTier
        rw [if_pos he.symm]
      rw [hp]
      rfl
    · have hp : pushToTier e.2.2 e.2.1 (sinkList lp (some os)) = none := by
        unfold sinkList pushToTier
        rw [if_neg (fun hx => he hx.symm)]
        rfl
      rw [hp]
      rw [pushToTier_append_of_not_mem e.2.1 (sinkList lp (some os)) hu]
      have hp2 : pushToTier "uncategorized" e.2.1 (sinkList lp (some os))
          = some [⟨"uncategorized", "", os ++ [e.2.1], some lp, none⟩] := by
        unfold sinkList pushToTier
        rw [if_pos rfl]
      rw [hp2]
      rfl

theorem foldPlace_split (lp : LabelPosition) :
    ∀ (es : List (String × (Item × String))) (A : List Tier) (s : Option (List Item)),
      "uncategorized" ∉ A.map Tier.id →
      ∃ A2, es.foldl (placeEntry lp) (A ++ sinkList lp s)
          = A2 ++ sinkList lp (orphAcc (A.map Tier.id) s es) ∧
        A2.map Tier.id = A.map Tier.id := by
  intro es
  induction es with
  | nil => intro A s _; exact ⟨A, rfl, rfl⟩
  | cons e es ih =>
    intro A s hu
    simp only [List.foldl_cons]
    have horph : orphAcc (A.map Tier.id) s (e :: es)
        = orphAcc (A.map Tier.id) (orphStep (A.map Tier.id) s e) es := rfl
    by_cases hmem : e.2.2 ∈ A.map Tier.id
    · obtain ⟨A2, hplace, hids⟩ := placeEntry_into_template lp (sinkList lp s) e hmem
      rw [hplace]
      obtain ⟨A3, hfold, hids3⟩ := ih A2 s (by rw [hids]; exact hu)
      refine ⟨A3, ?_, by rw [hids3, hids]⟩
      rw [hfold, hids]
      rw [horph]
      have hstep : orphStep (A.map Tier.id) s e = s := by
        unfold orphStep
        rw [if_pos (by simpa using hmem)]
      rw [hstep]
    · rw [placeEntry_orphan lp e hmem hu]
      obtain ⟨A3, hfold, hids3⟩ := ih A (some (s.getD [] ++ [e.2.1])) hu
      refine ⟨A3, ?_, hids3⟩
      rw [hfold, horph]
      have hstep : orphStep (A.map Tier.id) s e = some (s.getD [] ++ [e.2.1]) := by
        unfold orphStep
        rw [if_neg (by simpa using hmem)]
      rw [hstep]

theorem orphAcc_some (ids : List String) :
    ∀ (es : List (String × (Item × String))) (os : List Item),
      orphAcc ids (some os) es
        = some (os ++ (es.filter fun e => !ids.contains e.2.2).map fun e => e.2.1) := by
  intro es
  induction es with
  | nil => intro os; simp [orphAcc]
  | cons e es ih =>
    intro os
    by_cases hc : ids.contains e.2.2 = true
    · have hstep : orphStep ids (some os) e = some os := by
        unfold orphStep
        rw [if_pos hc]
      have hm : e.2.2 ∈ ids := by simpa using hc
      have hfilter : ((e :: es).filter fun x => !ids.contains x.2.2)
          = es.filter fun x => !ids.contains x.2.2 := by
        rw [List.filter_cons]
        simp [hm]
      unfold orphAcc at ih ⊢
      simp only [List.foldl_cons, hstep]
      rw [ih os, hfilter]
    · have hstep : orphStep ids (some os) e = some (os ++ [e.2.1]) := by
        unfold orphStep
        rw [if_neg hc]
        rfl
      have hm : e.2.2 ∉ ids := by simpa using hc
      have hfilter : ((e :: es).filter fun x => !ids.contains x.2.2)
          = e :: es.filter fun x => !ids.contains x.2.2 := by
        rw [List.filter_cons]
        simp [hm]
      unfold orphAcc at ih ⊢
      simp only [List.foldl_cons, hstep]
      rw [ih (os ++ [e.2.1]), hfilter]
      simp

theorem orphAcc_none (ids : List String) :
    ∀ (es : List (String × (Item × String))),
      orphAcc ids none es
        = if (es.filter fun e => !ids.contains e.2.2) = [] then none
          else some ((es.filter fun e => !ids.contains e.2.2).map fun e => e.2.1) := by
  intro es
  induction es with
  | nil => simp [orphAcc]
  | cons e es ih =>
    by_cases hc : ids.contains e.2.2 = true
    · have hstep : orphStep ids none e = none := by
        unfold orphStep
        rw [if_pos hc]
      have hm : e.2.2 ∈ ids := by simpa using hc
      have hfilter : ((e :: es).filter fun x => !ids.contains x.2.2)
          = es.filter fun x => !ids.contains x.2.2 := by
        rw [List.filter_cons]
        simp [hm]
      unfold orphAcc at ih ⊢
      simp only [List.foldl_cons, hstep]
      rw [ih, hfilter]
    · have hstep : orphStep ids none e = some ([] ++ [e.2.1]) := by
        unfold orphStep
        rw [if_neg hc]
        rfl
      have hm : e.2.2 ∉ ids := by simpa using hc
      have hfilter : ((e :: es).filter fun x => !ids.contains x.2.2)
          = e :: es.filter fun x => !ids.contains x.2.2 := by
        rw [List.filter_cons]
        simp [hm]
      unfold orphAcc
      simp only [List.foldl_cons, hstep]
      have := orphAcc_some ids es [e.2.1]
      unfold orphAcc at this
      rw [show ([] ++ [e.2.1]) = [e.2.1] from by simp, this, hfilter]
      rw [if_neg (by simp)]
      simp

theorem instantiateTemplate_map_id (newTemplate : List Tier) (lp : LabelPosition) :
    (instantiateTemplate newTemplate lp).map Tier.id = newTemplate.map Tier.id := by
  unfold instantiateTemplate
  rw [List.map_map]
  exact List.map_congr_left (fun t _ => rfl)

theorem flatItems_instantiateTemplate (tmpl : List Tier) (lp : LabelPosition) :
    flatItems (instantiateTemplate tmpl lp) = [] := by
  induction tmpl with
  | nil => rfl
  | cons t ts ih =>
    unfold flatItems instantiateTemplate at ih ⊢
    simp [ih]

theorem allItemsMap_id_eq_key (tiers : List Tier) :
    ∀ p ∈ allItemsMap tiers, (p.2.1 : Item).id = p.1 := by
  intro p hp
  refine jsMapOfList_mem_prop (fun q => (q.2.1 : Item).id = q.1) ?_ p hp
  intro q hq
  rcases List.mem_flatMap.mp hq with ⟨t, _, hm⟩
  rcases List.mem_map.mp hm with ⟨it, _, rfl⟩
  rfl

theorem allItemsMap_item_ids_nodup (tiers : List Tier) :
    ((allItemsMap tiers).map fun e => e.2.1.id).Nodup := by
  have heq : ((allItemsMap tiers).map fun e => e.2.1.id) = keysOf (allItemsMap tiers) :=
    List.map_congr_left (fun p hp => allItemsMap_id_eq_key tiers p hp)
  rw [heq]
  exact jsMapOfList_keys_nodup _

theorem flatItems_append (l1 l2 : List Tier) :
    flatItems (l1 ++ l2) = flatItems l1 ++ flatItems l2 := by
  unfold flatItems
  simp

theorem pushToTier_flatItems {tid : String} {it : Item} :
    ∀ {ts ts2 : List Tier}, pushToTier tid it ts = some ts2 →
      flatItems ts2 ~ it :: flatItems ts := by
  intro ts
  induction ts with
  | nil => intro ts2 h; simp [pushToTier] at h
  | cons t rest ih =>
    intro ts2 h
    simp only [pushToTier] at h
    by_cases ht : t.id = tid
    · rw [if_pos ht] at h
      cases h
      show flatItems ({ t with items := t.items ++ [it] } :: rest) ~ it :: flatItems (t :: rest)
      unfold flatItems
      simp only [List.flatMap_cons]
      calc (t.items ++ [it]) ++ rest.flatMap (fun x => x.items)
          = t.items ++ (it :: rest.flatMap (fun x => x.items)) := by simp
        _ ~ it :: (t.items ++ rest.flatMap (fun x => x.items)) := List.perm_middle
    · rw [if_neg ht] at h
      cases hrest : pushToTier tid it rest with
      | none =>
        rw [hrest] at h
        simp at h
      | some r2 =>
        rw [hrest] at h
        have h2 : some (t :: r2) = some ts2 := h
        cases h2
        have hperm := ih hrest
        show flatItems (t :: r2) ~ it :: flatItems (t :: rest)
        unfold flatItems at hperm ⊢
        simp only [List.flatMap_cons]
        calc t.items ++ r2.flatMap (fun x => x.items)
            ~ t.items ++ (it :: rest.flatMap (fun x => x.items)) := hperm.append_left t.items
          _ ~ it :: (t.items ++ rest.flatMap (fun x => x.items)) := List.perm_middle

theorem placeEntry_flatItems (lp : LabelPosition) (acc : List Tier)
    (e : String × (Item × String)) :
    flatItems (placeEntry lp acc e) ~ e.2.1 :: flatItems acc := by
  unfold placeEntry
  cases h1 : pushToTier e.2.2 e.2.1 acc with
  | some acc2 => exact pushToTier_flatItems h1
  | none =>
    cases h2 : pushToTier "uncategorized" e.2.1 acc with
    | some acc2 => exact pushToTier_flatItems h2
    | none =>
      rw [flatItems_append]
      have hsink : flatItems [(⟨"uncategorized", "", [e.2.1], some lp, none⟩ : Tier)]
          = [e.2.1] := by
        simp [flatItems]
      rw [hsink]
      exact List.perm_append_singleton e.2.1 (flatItems acc)

theorem foldPlace_flatItems (lp : LabelPosition) :
    ∀ (es : List (String × (Item × String))) (acc : List Tier),
      flatItems (es.foldl (placeEntry lp) acc) ~ flatItems acc ++ es.map fun e => e.2.1 := by
  intro es
  induction es with
  | nil => intro acc; simp
  | cons e es ih =>
    intro acc
    simp only [List.foldl_cons, List.map_cons]
    calc flatItems (es.foldl (placeEntry lp) (placeEntry lp acc e))
        ~ flatItems (placeEntry lp acc e) ++ es.map (fun e => e.2.1) := ih _
      _ ~ (e.2.1 :: flatItems acc) ++ es.map (fun e => e.2.1) :=
          (placeEntry_flatItems lp acc e).append_right _
      _ = e.2.1 :: (flatItems acc ++ es.map fun e => e.2.1) := by simp
      _ ~ flatItems acc ++ e.2.1 :: es.map (fun e => e.2.1) := List.perm_middle.symm

theorem handleTemplateChange_nodup_ids (tiers newTemplate : List Tier) (lp : LabelPosition) :
    (flatItemIds (handleTemplateChange tiers newTemplate lp)).Nodup := by
  have hperm := foldPlace_flatItems lp (allItemsMap tiers) (instantiateTemplate newTemplate lp)
  rw [flatItems_instantiateTemplate] at hperm
  simp only [List.nil_append] at hperm
  have hidperm : flatItemIds (handleTemplateChange tiers newTemplate lp)
      ~ (allItemsMap tiers).map fun e => e.2.1.id := by
    unfold flatItemIds handleTemplateChange
    have hmapped := hperm.map Item.id
    simpa [List.map_map] using hmapped
  exact hidperm.symm.nodup (allItemsMap_item_ids_nodup tiers)

theorem flatItems_updateLast_append (xs : List Item) {ts : List Tier} (h : ts ≠ []) :
    flatItems (updateLast (fun t => { t with items := t.items ++ xs }) ts)
      = flatItems ts ++ xs := by
  rcases List.eq_nil_or_concat ts with rfl | ⟨l2, a, rfl⟩
  · exact absurd rfl h
  · rw [List.concat_eq_append, updateLast_concat, flatItems_append, flatItems_append]
    simp [flatItems]

/-! ## Claims -/

/-- C1: the undo claim fails on the code.  `handleTiersUpdate` itself stores
its argument into `previousTiersRef` (line 50), which immediately overwrites
the checkpoint `deleteAllItems` saved one line earlier, so the checkpoint read
by `undo` is the emptied board: on the board `[{id:'t', name:'T',
items:[{id:'x', content:'X'}]}]`, `deleteAllItems()` followed by `undoDelete()`
leaves the board empty instead of restoring the pre-delete board (the second
conjunct), while a second undo indeed repeats the same result (third
conjunct).  The dead checkpoint store in `deleteAllItems` shows the restore
was intended, so the claim is right and the code defective. -/
theorem c1_undo_after_delete_does_not_restore :
    (undoDelete (deleteAllItems ⟨[⟨"t", "T", [⟨"x", "X", none⟩], none, none⟩],
        [⟨"t", "T", [⟨"x", "X", none⟩], none, none⟩]⟩)).tiers
      = [⟨"t", "T", [], none, none⟩] ∧
    (undoDelete (deleteAllItems ⟨[⟨"t", "T", [⟨"x", "X", none⟩], none, none⟩],
        [⟨"t", "T", [⟨"x", "X", none⟩], none, none⟩]⟩)).tiers
      ≠ [⟨"t", "T", [⟨"x", "X", none⟩], none, none⟩] ∧
    undoDelete (undoDelete (deleteAllItems ⟨[⟨"t", "T", [⟨"x", "X", none⟩], none, none⟩],
        [⟨"t", "T", [⟨"x", "X", none⟩], none, none⟩]⟩))
      = undoDelete (deleteAllItems ⟨[⟨"t", "T", [⟨"x", "X", none⟩], none, none⟩],
        [⟨"t", "T", [⟨"x", "X", none⟩], none, none⟩]⟩) := by
  decide

/-- C3: the template-immutability claim fails on the code.
`getInitialTiers` spreads `DEFAULT_TIER_TEMPLATE` shallowly and assigns the
shared last tier object's `items`, so after one call with an item set
(`{packageName:'p', images:['a.png']}`, empty catalog), a later call with
neither a state nor an item set returns the default template with the last
tier still holding that item instead of an all-empty template.  The spec's
"immutable preset" is clearly the intent and the shallow copy a slip. -/
theorem c3_default_template_mutated_by_item_set :
    (getInitialTiers [] (fun p => p) (fun _ => none)
        (getInitialTiers [] (fun p => p) (fun _ => none) DEFAULT_TIER_TEMPLATE
          none (some ⟨"p", ["a.png"]⟩)).2
        none none).1.map Tier.items
      = [[], [], [], [], [⟨"p-a.png", "a.png", some "/placeholder-image.jpg"⟩]] ∧
    (getInitialTiers [] (fun p => p) (fun _ => none)
        (getInitialTiers [] (fun p => p) (fun _ => none) DEFAULT_TIER_TEMPLATE
          none (some ⟨"p", ["a.png"]⟩)).2
        none none).1
      ≠ DEFAULT_TIER_TEMPLATE := by
  decide

/-- C7: resolver precedence is strict: whenever the catalog lookup has the
id, `resolveItem` returns the catalog's item — its content and image —
whatever the custom store holds and whatever fallback content is passed. -/
theorem c7_resolver_catalog_precedence (lookup : List (String × Item))
    (custom : List (String × StoredCustomItem)) (isServer : Bool)
    (absUrl : String → String) (itemId content : String) (item : Item)
    (h : assocFind itemId lookup = some item) :
    resolveItemJS lookup custom isServer absUrl (.str itemId) (.str content)
      = ⟨.str item.id, .str item.content, jsOfOptStr item.imageUrl⟩ := by
  unfold resolveItemJS
  rw [show toPropKey (.str itemId) = itemId from rfl, h]

/-- Witness for C7: a concrete id present in both the catalog (content "A")
and the custom store (content "shadowed"): resolution returns the catalog's
content and image. -/
theorem c7_resolver_catalog_precedence_witness :
    assocFind "p-a.png" [("p-a.png", (⟨"p-a.png", "A", some "/images/p/a.png"⟩ : Item))]
      = some ⟨"p-a.png", "A", some "/images/p/a.png"⟩ ∧
    resolveItemJS [("p-a.png", ⟨"p-a.png", "A", some "/images/p/a.png"⟩)]
      [("p-a.png", ⟨"p-a.png", "shadowed", "data:x"⟩)] false (fun p => p)
      (.str "p-a.png") (.str "fallback")
      = ⟨.str "p-a.png", .str "A", .str "/images/p/a.png"⟩ :=
  ⟨rfl,
    c7_resolver_catalog_precedence
      [("p-a.png", ⟨"p-a.png", "A", some "/images/p/a.png"⟩)]
      [("p-a.png", ⟨"p-a.png", "shadowed", "data:x"⟩)] false (fun p => p)
      "p-a.png" "fallback" ⟨"p-a.png", "A", some "/images/p/a.png"⟩ rfl⟩

/-- C10: when the id misses the catalog but hits the custom store on the
client, resolution returns an item whose content is the caller-supplied
fallback — the stored record's own content (`customItem.c`) is ignored — and
whose image is the stored record's `imageData`. -/
theorem c10_custom_resolution_uses_fallback_content
    (lookup : List (String × Item)) (custom : List (String × StoredCustomItem))
    (absUrl : String → String) (itemId content : String) (rec : StoredCustomItem)
    (h1 : assocFind itemId lookup = none) (h2 : assocFind itemId custom = some rec) :
    resolveItemJS lookup custom false absUrl (.str itemId) (.str content)
      = ⟨.str rec.i, .str content, .str rec.d⟩ := by
  unfold resolveItemJS
  rw [show toPropKey (.str itemId) = itemId from rfl, h1]
  simp [h2]

/-- Witness for C10: a concrete custom-store record whose stored content
"stored-content" is ignored in favour of the fallback "fallback". -/
theorem c10_custom_resolution_witness :
    assocFind "c1" ([] : List (String × Item)) = none ∧
    assocFind "c1" [("c1", (⟨"c1", "stored-content", "data:img"⟩ : StoredCustomItem))]
      = some ⟨"c1", "stored-content", "data:img"⟩ ∧
    resolveItemJS [] [("c1", ⟨"c1", "stored-content", "data:img"⟩)] false (fun p => p)
      (.str "c1") (.str "fallback")
      = ⟨.str "c1", .str "fallback", .str "data:img"⟩ :=
  ⟨rfl, rfl,
    c10_custom_resolution_uses_fallback_content [] [("c1", ⟨"c1", "stored-content", "data:img"⟩)]
      (fun p => p) "c1" "fallback" ⟨"c1", "stored-content", "data:img"⟩ rfl rfl⟩

/-- C9 (amended): for every catalog package and image entry — when the
generated ids are pairwise distinct — the startup lookup maps
`"<catalogName>-<filename>"` to an item with that id, with content the label
when present and non-empty and otherwise the part of the filename before its
FIRST dot (not the extension-stripped filename), and with image path
`"/images/<catalogName>/<filename>"`. -/
theorem c9_catalog_lookup_amended (cfg : ImageSetCfg)
    (hnd : (keysOf (catalogPairs cfg)).Nodup)
    (pkgName : String) (images : List ImageEntry) (image : ImageEntry)
    (hp : (pkgName, images) ∈ cfg) (hi : image ∈ images) :
    assocFind (pkgName ++ "-" ++ image.filename) (buildPackageItemLookup cfg)
      = some ⟨pkgName ++ "-" ++ image.filename, catalogContent image,
          some ("/images/" ++ pkgName ++ "/" ++ image.filename)⟩ := by
  have hmem : (pkgName ++ "-" ++ image.filename,
      (⟨pkgName ++ "-" ++ image.filename, catalogContent image,
        some ("/images/" ++ pkgName ++ "/" ++ image.filename)⟩ : Item)) ∈ catalogPairs cfg := by
    unfold catalogPairs
    exact List.mem_flatMap.mpr ⟨(pkgName, images), hp, List.mem_map.mpr ⟨image, hi, rfl⟩⟩
  unfold buildPackageItemLookup
  rw [jsMapOfList_eq_self_of_nodup hnd]
  exact assocFind_of_mem_nodup hnd hmem

/-- Witness for C9: a one-package catalog with filename `a.png` and label
`A`: the lookup maps `p-a.png` to `{id: p-a.png, content: A, imageUrl:
/images/p/a.png}`. -/
theorem c9_catalog_lookup_amended_witness :
    (keysOf (catalogPairs [("p", [⟨"a.png", some "A"⟩])])).Nodup ∧
    ("p", [(⟨"a.png", some "A"⟩ : ImageEntry)]) ∈ ([("p", [⟨"a.png", some "A"⟩])] : ImageSetCfg) ∧
    (⟨"a.png", some "A"⟩ : ImageEntry) ∈ [(⟨"a.png", some "A"⟩ : ImageEntry)] ∧
    assocFind "p-a.png" (buildPackageItemLookup [("p", [⟨"a.png", some "A"⟩])])
      = some ⟨"p-a.png", "A", some "/images/p/a.png"⟩ :=
  ⟨by decide, by decide, by decide,
    c9_catalog_lookup_amended [("p", [⟨"a.png", some "A"⟩])] (by decide)
      "p" [⟨"a.png", some "A"⟩] ⟨"a.png", some "A"⟩ (by decide) (by decide)⟩

/-- Counterexample for C9 as stated: for the multi-dot filename `a.b.png`
(no label), the lookup's content is `a` — the part before the FIRST dot —
whereas the filename with its extension stripped is `a.b`. -/
theorem c9_counterexample :
    (assocFind "p-a.b.png" (buildPackageItemLookup [("p", [⟨"a.b.png", none⟩])])).map Item.content
      = some "a" ∧
    specStripExtension "a.b.png" = "a.b" ∧
    ("a" : String) ≠ "a.b" := by
  decide

/-! ### C4: `resetItems` -/

/-- C4 (amended): `resetItems` flattens all items into one sequence sorted by
`content` under `localeCompare` (the default-locale collation, which orders
case-insensitively first — not the case-sensitive lexicographic order the
claim names), empties every tier, reuses the last tier when its id is
`"uncategorized"` and otherwise appends a new one, and assigns the sorted
sequence to that sink; the claim's concrete example
`["Banana","Apple","cherry"] ↦ ["Apple","Banana","cherry"]` does hold (final
conjunct). -/
theorem c4_reset_items_amended (tiers : List Tier) (lp : LabelPosition) :
    (resetItems tiers lp).getLast?.map Tier.items
      = some (jsSortBy (fun a b => localeCompare a.content b.content) (flatItems tiers)) ∧
    (resetItems tiers lp).getLast?.map Tier.id = some "uncategorized" ∧
    (∀ t ∈ (resetItems tiers lp).dropLast, t.items = []) ∧
    (resetItems tiers lp).map Tier.id =
      (if lastIsUncategorized tiers then tiers.map Tier.id
       else tiers.map Tier.id ++ ["uncategorized"]) ∧
    (resetItems [⟨"t1", "T1", [⟨"i1", "Banana", none⟩], none, none⟩,
        ⟨"t2", "T2", [⟨"i2", "Apple", none⟩, ⟨"i3", "cherry", none⟩], none, none⟩] .left).map
      (fun t => t.items.map Item.content) = [[], [], ["Apple", "Banana", "cherry"]] := by
  rcases List.eq_nil_or_concat tiers with rfl | ⟨l2, a, rfl⟩
  · exact ⟨rfl, rfl, by simp [resetItems], rfl, by decide⟩
  · rw [List.concat_eq_append]
    have hlast : ((l2 ++ [a]).map fun tier => { tier with items := ([] : List Item) }).getLast?
        = some { a with items := ([] : List Item) } := by
      rw [List.map_append]
      exact List.getLast?_concat _
    have hlu : lastIsUncategorized (l2 ++ [a]) = (a.id == "uncategorized") := by
      unfold lastIsUncategorized
      rw [List.getLast?_concat]
    unfold resetItems
    dsimp only
    rw [hlast]
    dsimp only
    by_cases ha : a.id = "uncategorized"
    · rw [if_pos ha]
      have hne : ((l2 ++ [a]).map fun tier => { tier with items := ([] : List Item) }) ≠ [] := by
        simp
      refine ⟨?_, ?_, ?_, ?_, by decide⟩
      · rw [updateLast_getLast? _ hne, hlast]
        rfl
      · rw [updateLast_getLast? _ hne, hlast]
        simpa using ha
      · intro t ht
        rw [updateLast_dropLast] at ht
        have hmem := (List.dropLast_sublist _).subset ht
        rcases List.mem_map.mp hmem with ⟨u, _, rfl⟩
        rfl
      · rw [updateLast_setItems_map_id, hlu, ha]
        simp [List.map_map]
    · rw [if_neg ha]
      refine ⟨?_, ?_, ?_, ?_, by decide⟩
      · rw [List.getLast?_concat]
        rfl
      · rw [List.getLast?_concat]
        rfl
      · intro t ht
        rw [List.dropLast_concat] at ht
        rcases List.mem_map.mp ht with ⟨u, _, rfl⟩
        rfl
      · rw [hlu]
        have hbe : (a.id == "uncategorized") = false := by simpa using ha
        rw [hbe]
        simp [List.map_map]

/-- Counterexample for C4 as stated: on a board whose items have contents
`apple` and `Banana`, the code's sink sequence is `["apple","Banana"]`
(locale order), while the case-sensitive lexicographic order the claim
prescribes is `["Banana","apple"]`. -/
theorem c4_counterexample :
    (resetItems [⟨"uncategorized", "", [⟨"i1", "apple", none⟩, ⟨"i2", "Banana", none⟩],
        none, none⟩] .left).getLast?.map (fun t => t.items.map Item.content)
      = some ["apple", "Banana"] ∧
    jsSortBy specLexCompare ["apple", "Banana"] = ["Banana", "apple"] ∧
    (["apple", "Banana"] : List String) ≠ ["Banana", "apple"] := by
  decide

@[simp] theorem except_bind_ok (a : α) (f : α → Except Unit β) :
    (Except.ok a >>= f : Except Unit β) = f a := rfl

theorem exMapList_map {f : β → Except Unit γ} {g : α → β} {h : α → γ}
    (hfg : ∀ x, f (g x) = .ok (h x)) : ∀ xs : List α, exMapList f (xs.map g) = .ok (xs.map h)
  | [] => rfl
  | x :: xs => by
    simp only [List.map_cons, exMapList, hfg x, exMapList_map hfg xs, except_bind_ok]

theorem exMapList_error {f : α → Except Unit β} :
    ∀ {xs : List α}, (∃ x ∈ xs, f x = .error ()) → exMapList f xs = .error () := by
  intro xs
  induction xs with
  | nil =>
    intro h
    rcases h with ⟨x, hx, _⟩
    simp at hx
  | cons x xs ih =>
    intro h
    rcases h with ⟨y, hy, hfy⟩
    rcases List.mem_cons.mp hy with rfl | hy2
    · unfold exMapList
      rw [hfy]
      rfl
    · cases hfx : f x with
      | error e =>
        unfold exMapList
        rw [hfx]
        rfl
      | ok b =>
        unfold exMapList
        rw [hfx]
        simp only [except_bind_ok]
        rw [ih ⟨y, hy2, hfy⟩]
        rfl

/-- A tier-level mapping TypeError: on an element that is `null` or
`undefined` (the member read `simplifiedTier.i` throws), or whose `t` member
is not an array (`simplifiedTier.t.map` throws), `decodeTierJS` raises the
error the surrounding try/catch turns into `null`. -/
theorem decodeTierJS_typeError (lookup : List (String × Item))
    (custom : List (String × StoredCustomItem)) (isServer : Bool)
    (absUrl : String → String) {v : JSVal}
    (h : v = .null ∨ v = .undefined ∨
      ∃ tv, getField v "t" = .ok tv ∧ ∀ ys, tv ≠ JSVal.arr ys) :
    decodeTierJS lookup custom isServer absUrl v = .error () := by
  rcases h with rfl | rfl | ⟨tv, htv, harr⟩
  · rfl
  · rfl
  · have hjs : jsArrayMap (decodeItemJS lookup custom isServer absUrl) tv = .error () := by
      cases tv with
      | arr ys => exact absurd rfl (harr ys)
      | null => rfl
      | undefined => rfl
      | bool b => rfl
      | num n => rfl
      | str s2 => rfl
      | obj fs => rfl
    obtain ⟨a, ha⟩ : ∃ a, getField v "i" = .ok a := by
      cases v with
      | null => exact nomatch htv
      | undefined => exact nomatch htv
      | bool b => exact ⟨_, rfl⟩
      | num n => exact ⟨_, rfl⟩
      | str s2 => exact ⟨_, rfl⟩
      | arr ys => exact ⟨_, rfl⟩
      | obj fs => exact ⟨_, rfl⟩
    obtain ⟨b, hb⟩ : ∃ b, getField v "n" = .ok b := by
      cases v with
      | null => exact nomatch htv
      | undefined => exact nomatch htv
      | bool b2 => exact ⟨_, rfl⟩
      | num n => exact ⟨_, rfl⟩
      | str s2 => exact ⟨_, rfl⟩
      | arr ys => exact ⟨_, rfl⟩
      | obj fs => exact ⟨_, rfl⟩
    unfold decodeTierJS
    rw [ha]
    simp only [except_bind_ok]
    rw [hb]
    simp only [except_bind_ok]
    rw [htv]
    simp only [except_bind_ok]
    rw [hjs]
    rfl

/-! ### C8: decode error handling -/

/-- C8 (amended): `decodeTierStateFromURL` is a total function into
`Option` — nothing escapes its try/catch — and it returns `null` whenever the
decompression yields no text or the empty text, whenever the decompressed
text is not valid JSON, whenever the parsed value is not an array (the
`.map` call then raises a TypeError that the catch turns into `null`), and
whenever mapping a parsed array raises a TypeError — an element that is
`null` or `undefined`, or an element whose `t` member is not an array.  An
array element that is an object with a valid `t` array but missing or
non-string `i`/`n` members can instead produce a non-null board with
`undefined` fields — see the C8 counterexample. -/
theorem c8_decode_failure_yields_none
    (decompress : String → Option String) (parse : String → Option JSVal)
    (lookup : List (String × Item)) (custom : List (String × StoredCustomItem))
    (isServer : Bool) (absUrl : String → String) (s : String)
    (h : decompress s = none ∨ decompress s = some "" ∨
      (∃ j, decompress s = some j ∧ parse j = none) ∨
      (∃ j v, decompress s = some j ∧ j ≠ "" ∧ parse j = some v ∧ ∀ xs, v ≠ JSVal.arr xs) ∨
      (∃ j xs, decompress s = some j ∧ j ≠ "" ∧ parse j = some (JSVal.arr xs) ∧
        ∃ v ∈ xs, v = JSVal.null ∨ v = JSVal.undefined ∨
          ∃ tv, getField v "t" = .ok tv ∧ ∀ ys, tv ≠ JSVal.arr ys)) :
    decodeTierStateFromURL decompress parse lookup custom isServer absUrl s = none := by
  unfold decodeTierStateFromURL
  rcases h with h | h | ⟨j, hj, hp⟩ | ⟨j, v, hj, hne, hp, hv⟩ |
    ⟨j, xs, hj, hne, hp, v, hvmem, hv⟩
  · rw [h]
  · rw [h]
    simp
  · rw [hj]
    dsimp only
    by_cases hje : j = ""
    · rw [if_pos hje]
    · rw [if_neg hje, hp]
  · rw [hj]
    dsimp only
    rw [if_neg hne, hp]
    have herr : decodeTiersFromJSVal lookup custom isServer absUrl v = .error () := by
      cases v with
      | arr xs => exact absurd rfl (hv xs)
      | null => rfl
      | undefined => rfl
      | bool b => rfl
      | num n => rfl
      | str s2 => rfl
      | obj fs => rfl
    dsimp only
    rw [herr]
  · rw [hj]
    dsimp only
    rw [if_neg hne, hp]
    have herr : decodeTiersFromJSVal lookup custom isServer absUrl (.arr xs) = .error () :=
      exMapList_error ⟨v, hvmem, decodeTierJS_typeError lookup custom isServer absUrl hv⟩
    dsimp only
    rw [herr]

/-- Witness for C8: the `null`-producing failure modes fire on concrete
inputs: a failed decompression, an empty decompression, decompressed text
that is not valid JSON, an array whose element is `null` (a TypeError during
mapping), and an array whose element's `t` member is `undefined` rather than
an array. -/
theorem c8_decode_failure_witness :
    decodeTierStateFromURL (fun _ => none) jsonParse [] [] false (fun p => p) "x" = none ∧
    decodeTierStateFromURL (fun _ => some "") jsonParse [] [] false (fun p => p) "x" = none ∧
    decodeTierStateFromURL (fun t => some t) jsonParse [] [] false (fun p => p) "nope" = none ∧
    decodeTierStateFromURL (fun t => some t) jsonParse [] [] false (fun p => p) "[null]" = none ∧
    decodeTierStateFromURL (fun t => some t) jsonParse [] [] false (fun p => p) "[3]" = none :=
  ⟨c8_decode_failure_yields_none _ _ _ _ _ _ _ (Or.inl rfl),
   c8_decode_failure_yields_none _ _ _ _ _ _ _ (Or.inr (Or.inl rfl)),
   c8_decode_failure_yields_none _ _ _ _ _ _ _ (Or.inr (Or.inr (Or.inl ⟨"nope", rfl, rfl⟩))),
   c8_decode_failure_yields_none _ _ _ _ _ _ _ (Or.inr (Or.inr (Or.inr (Or.inr
     ⟨"[null]", [JSVal.null], rfl, by decide, rfl,
       JSVal.null, List.mem_singleton.mpr rfl, Or.inl rfl⟩)))),
   c8_decode_failure_yields_none _ _ _ _ _ _ _ (Or.inr (Or.inr (Or.inr (Or.inr
     ⟨"[3]", [JSVal.num 3], rfl, by decide, rfl,
       JSVal.num 3, List.mem_singleton.mpr rfl,
       Or.inr (Or.inr ⟨JSVal.undefined, rfl, fun ys hy => nomatch hy⟩)⟩))))⟩

/-- Counterexample for C8 as stated: on the token that decompresses to the
text `[{"t":[]}]` (the decompression parameter is the identity, which agrees
with the LZString decompress-of-compress contract at this point), the parsed
structure does not match the expected tier shape — its only element lacks the
`i` and `n` string members — yet decoding returns a non-null board whose tier
id and name are `undefined` instead of the `null` the claim requires. -/
theorem c8_counterexample :
    decodeTierStateFromURL (fun t => some t) jsonParse [] [] false (fun p => p)
      "[\x7b\"t\":[]\x7d]" = some [⟨.undefined, .undefined, []⟩] ∧
    decodeTierStateFromURL (fun t => some t) jsonParse [] [] false (fun p => p)
      "[\x7b\"t\":[]\x7d]" ≠ none := by
  decide

/-! ### C2: the round-trip -/

/-- Every value of the catalog lookup carries its own key as id (the
construction stores `id` under the key `id`). -/
theorem buildPackageItemLookup_id_eq_key (cfg : ImageSetCfg) {k : String} {it : Item}
    (h : assocFind k (buildPackageItemLookup cfg) = some it) : it.id = k := by
  have hmem := assocFind_mem_of_eq_some h
  refine jsMapOfList_mem_prop (fun p => (p.2 : Item).id = p.1) ?_ _ hmem
  intro p hp
  rcases List.mem_flatMap.mp hp with ⟨pkg, _, hm2⟩
  rcases List.mem_map.mp hm2 with ⟨image, _, rfl⟩
  rfl

/-- Every value of the custom-items map carries its own key in `i` (the
records are stored under their `i` field). -/
theorem buildCustomItemsMap_i_eq_key (stored : List StoredCustomItem) {k : String}
    {r : StoredCustomItem} (h : assocFind k (buildCustomItemsMap stored) = some r) :
    r.i = k := by
  have hmem := assocFind_mem_of_eq_some h
  refine jsMapOfList_mem_prop (fun p => (p.2 : StoredCustomItem).i = p.1) ?_ _ hmem
  intro p hp
  rcases List.mem_map.mp hp with ⟨rec, _, rfl⟩
  rfl

/-- Equation: a catalog hit returns the catalog item verbatim. -/
theorem resolveItemJS_catalog {lookup : List (String × Item)}
    (custom : List (String × StoredCustomItem)) (isServer : Bool)
    (absUrl : String → String) {itemId : String} (content : String) {it : Item}
    (h : assocFind itemId lookup = some it) :
    resolveItemJS lookup custom isServer absUrl (.str itemId) (.str content)
      = ⟨.str it.id, .str it.content, jsOfOptStr it.imageUrl⟩ := by
  unfold resolveItemJS
  rw [show toPropKey (.str itemId) = itemId from rfl, h]

/-- Equation: a catalog miss with a custom-store hit on the client returns
the stored id and imageData with the fallback content. -/
theorem resolveItemJS_custom {lookup : List (String × Item)}
    {custom : List (String × StoredCustomItem)} (absUrl : String → String)
    {itemId : String} (content : String) {r : StoredCustomItem}
    (h1 : assocFind itemId lookup = none) (h2 : assocFind itemId custom = some r) :
    resolveItemJS lookup custom false absUrl (.str itemId) (.str content)
      = ⟨.str r.i, .str content, .str r.d⟩ := by
  unfold resolveItemJS
  rw [show toPropKey (.str itemId) = itemId from rfl, h1]
  simp [h2]

/-- Equation: a double miss on the client returns the placeholder item. -/
theorem resolveItemJS_miss {lookup : List (String × Item)}
    {custom : List (String × StoredCustomItem)} (absUrl : String → String)
    {itemId : String} (content : String)
    (h1 : assocFind itemId lookup = none) (h2 : assocFind itemId custom = none) :
    resolveItemJS lookup custom false absUrl (.str itemId) (.str content)
      = ⟨.str itemId, .str content, .str (absUrl "/placeholder-image.jpg")⟩ := by
  unfold resolveItemJS
  rw [show toPropKey (.str itemId) = itemId from rfl, h1]
  simp [h2]

/-- Equation: a catalog miss on the server returns the placeholder item (the
custom store is never consulted). -/
theorem resolveItemJS_server {lookup : List (String × Item)}
    (custom : List (String × StoredCustomItem)) (absUrl : String → String)
    {itemId : String} (content : String)
    (h1 : assocFind itemId lookup = none) :
    resolveItemJS lookup custom true absUrl (.str itemId) (.str content)
      = ⟨.str itemId, .str content, .str (absUrl "/placeholder-image.jpg")⟩ := by
  unfold resolveItemJS
  rw [show toPropKey (.str itemId) = itemId from rfl, h1]
  rfl

/-- On string arguments, `resolveItem` preserves the id, and preserves the
fallback content whenever a catalog hit would return the same content: the
three resolution branches return the catalog item (id is the key, content by
hypothesis), the custom record (id is the key, content the fallback), or the
placeholder (id and content passed through). -/
theorem resolveItemJS_sig (lookup : List (String × Item))
    (custom : List (String × StoredCustomItem)) (isServer : Bool)
    (absUrl : String → String) (itemId content : String)
    (hlk : ∀ it : Item, assocFind itemId lookup = some it → it.id = itemId)
    (hck : ∀ r : StoredCustomItem, assocFind itemId custom = some r → r.i = itemId)
    (hc : ∀ it : Item, assocFind itemId lookup = some it → content = it.content) :
    (resolveItemJS lookup custom isServer absUrl (.str itemId) (.str content)).id
        = .str itemId ∧
    (resolveItemJS lookup custom isServer absUrl (.str itemId) (.str content)).content
        = .str content := by
  cases hl : assocFind itemId lookup with
  | some it =>
    rw [resolveItemJS_catalog custom isServer absUrl content hl]
    exact ⟨congrArg JSVal.str (hlk it hl), congrArg JSVal.str (hc it hl).symm⟩
  | none =>
    cases isServer with
    | true =>
      rw [resolveItemJS_server custom absUrl content hl]
      exact ⟨rfl, rfl⟩
    | false =>
      cases hcu : assocFind itemId custom with
      | some r =>
        rw [resolveItemJS_custom absUrl content hl hcu]
        exact ⟨congrArg JSVal.str (hck r hcu), rfl⟩
      | none =>
        rw [resolveItemJS_miss absUrl content hl hcu]
        exact ⟨rfl, rfl⟩

theorem decodeItemJS_simplified (lookup : List (String × Item))
    (custom : List (String × StoredCustomItem)) (isServer : Bool)
    (absUrl : String → String) (si : SimplifiedItem) :
    decodeItemJS lookup custom isServer absUrl (simplifiedItemToJSVal si)
      = .ok (resolveItemJS lookup custom isServer absUrl (.str si.i) (.str si.c)) := rfl

theorem decodeTierJS_simplified (lookup : List (String × Item))
    (custom : List (String × StoredCustomItem)) (isServer : Bool)
    (absUrl : String → String) (st : SimplifiedTier) :
    decodeTierJS lookup custom isServer absUrl (simplifiedTierToJSVal st)
      = .ok ⟨.str st.i, .str st.n,
          st.t.map fun si =>
            resolveItemJS lookup custom isServer absUrl (.str si.i) (.str si.c)⟩ := by
  have h1 : getField (simplifiedTierToJSVal st) "i" = .ok (.str st.i) := rfl
  have h2 : getField (simplifiedTierToJSVal st) "n" = .ok (.str st.n) := rfl
  have h3 : getField (simplifiedTierToJSVal st) "t"
      = .ok (.arr (st.t.map simplifiedItemToJSVal)) := rfl
  have harr : jsArrayMap (decodeItemJS lookup custom isServer absUrl)
      (.arr (st.t.map simplifiedItemToJSVal))
      = .ok (st.t.map fun si =>
          resolveItemJS lookup custom isServer absUrl (.str si.i) (.str si.c)) := by
    unfold jsArrayMap
    exact exMapList_map (decodeItemJS_simplified lookup custom isServer absUrl) st.t
  unfold decodeTierJS
  simp only [h1, h2, h3, except_bind_ok, harr]
  rfl

/-- C2 (amended): the round-trip reproduces every tier id, tier name, item id
and item content, in order — for boards in which every item whose id hits the
catalog lookup already carries the catalog's content for that id (decoding
re-resolves contents, so a board that pairs a catalog id with different
content comes back with the catalog's content instead: see the C2
counterexample).  Only `imageUrl` and `labelPosition` are outside the
comparison, as the claim allows.  The runtime transforms are abstract
parameters constrained pointwise by their contracts: LZString decompression
inverts compression on the produced text, the text is nonempty, and
`JSON.parse` inverts `JSON.stringify` on the produced value. -/
theorem c2_roundtrip_amended
    (stringify : List SimplifiedTier → String) (compress : String → String)
    (decompress : String → Option String) (parse : String → Option JSVal)
    (cfg : ImageSetCfg) (stored : List StoredCustomItem) (isServer : Bool)
    (absUrl : String → String) (board : List Tier)
    (hlz : decompress (compress (stringify (simplifyTiers board)))
      = some (stringify (simplifyTiers board)))
    (hne : stringify (simplifyTiers board) ≠ "")
    (hparse : parse (stringify (simplifyTiers board))
      = some (simplifiedTiersToJSVal (simplifyTiers board)))
    (hcontent : ∀ t ∈ board, ∀ it ∈ t.items, ∀ ci : Item,
      assocFind it.id (buildPackageItemLookup cfg) = some ci → it.content = ci.content) :
    (decodeTierStateFromURL decompress parse (buildPackageItemLookup cfg)
        (buildCustomItemsMap stored) isServer absUrl
        (encodeTierStateForURL stringify compress board)).map (List.map jsTierSig)
      = some (board.map tierSig) := by
  unfold encodeTierStateForURL decodeTierStateFromURL
  rw [hlz]
  dsimp only
  rw [if_neg hne, hparse]
  dsimp only
  have hdec : decodeTiersFromJSVal (buildPackageItemLookup cfg) (buildCustomItemsMap stored)
      isServer absUrl (simplifiedTiersToJSVal (simplifyTiers board))
      = .ok ((simplifyTiers board).map fun st =>
          (⟨.str st.i, .str st.n,
            st.t.map fun si =>
              resolveItemJS (buildPackageItemLookup cfg) (buildCustomItemsMap stored)
                isServer absUrl (.str si.i) (.str si.c)⟩ : JSTier)) := by
    unfold decodeTiersFromJSVal simplifiedTiersToJSVal jsArrayMap
    exact exMapList_map
      (decodeTierJS_simplified (buildPackageItemLookup cfg) (buildCustomItemsMap stored)
        isServer absUrl) _
  rw [hdec]
  simp only [Option.map_some']
  congr 1
  unfold simplifyTiers
  rw [List.map_map, List.map_map]
  refine List.map_congr_left ?_
  intro t ht
  simp only [Function.comp_apply, jsTierSig, tierSig, List.map_map]
  refine Prod.ext rfl (Prod.ext rfl ?_)
  refine List.map_congr_left ?_
  intro it hit
  simp only [Function.comp_apply]
  have hsig := resolveItemJS_sig (buildPackageItemLookup cfg) (buildCustomItemsMap stored)
    isServer absUrl it.id it.content
    (fun ci hci => buildPackageItemLookup_id_eq_key cfg hci)
    (fun r hr => buildCustomItemsMap_i_eq_key stored hr)
    (fun ci hci => hcontent t ht it hit ci hci)
  exact Prod.ext hsig.1 hsig.2

/-- Witness for C2: a concrete board holding one catalog item (content
matching the catalog entry) and one custom item, round-tripped through the
concrete JSON model with an identity compression (matching the LZString
decompress-of-compress contract pointwise). -/
theorem c2_roundtrip_amended_witness :
    (∀ t ∈ ([⟨"t1", "T", [⟨"p-a.png", "A", some "/images/p/a.png"⟩, ⟨"c1", "Custom", none⟩],
        none, none⟩] : List Tier), ∀ it ∈ t.items, ∀ ci : Item,
      assocFind it.id (buildPackageItemLookup [("p", [⟨"a.png", some "A"⟩])]) = some ci →
        it.content = ci.content) ∧
    (decodeTierStateFromURL (fun t => some t) jsonParse
        (buildPackageItemLookup [("p", [⟨"a.png", some "A"⟩])])
        (buildCustomItemsMap [⟨"c1", "stored", "data:z"⟩]) false (fun p => p)
        (encodeTierStateForURL stringifySimplifiedTiers (fun t => t)
          [⟨"t1", "T", [⟨"p-a.png", "A", some "/images/p/a.png"⟩, ⟨"c1", "Custom", none⟩],
            none, none⟩])).map (List.map jsTierSig)
      = some ([⟨"t1", "T", [⟨"p-a.png", "A", some "/images/p/a.png"⟩, ⟨"c1", "Custom", none⟩],
          none, none⟩].map tierSig) := by
  have hcontent : ∀ t ∈ ([⟨"t1", "T",
      [⟨"p-a.png", "A", some "/images/p/a.png"⟩, ⟨"c1", "Custom", none⟩],
        none, none⟩] : List Tier), ∀ it ∈ t.items, ∀ ci : Item,
      assocFind it.id (buildPackageItemLookup [("p", [⟨"a.png", some "A"⟩])]) = some ci →
        it.content = ci.content := by
    intro t ht it hit ci hci
    rw [List.mem_singleton] at ht
    subst ht
    rcases List.mem_cons.mp hit with rfl | hit2
    · have h2 : some (⟨"p-a.png", "A", some "/images/p/a.png"⟩ : Item) = some ci := hci
      injection h2 with h3
      rw [← h3]
    · rcases List.mem_singleton.mp hit2 with rfl
      have h2 : (none : Option Item) = some ci := hci
      exact Option.noConfusion h2
  exact ⟨hcontent,
    c2_roundtrip_amended stringifySimplifiedTiers (fun t => t) (fun t => some t) jsonParse
      [("p", [⟨"a.png", some "A"⟩])] [⟨"c1", "stored", "data:z"⟩] false (fun p => p)
      [⟨"t1", "T", [⟨"p-a.png", "A", some "/images/p/a.png"⟩, ⟨"c1", "Custom", none⟩],
        none, none⟩]
      rfl (by decide) (by decide) hcontent⟩

/-- Counterexample for C2 as stated: a board that pairs the catalog id
`p-a.png` with content `ZZZ` does not round-trip exactly — decoding
re-resolves the item through the catalog and returns content `A`, so the
reconstructed signature differs from the original board's. -/
theorem c2_counterexample :
    (decodeTierStateFromURL (fun t => some t) jsonParse
        (buildPackageItemLookup [("p", [⟨"a.png", some "A"⟩])]) [] false (fun p => p)
        (encodeTierStateForURL stringifySimplifiedTiers (fun t => t)
          [⟨"t", "T", [⟨"p-a.png", "ZZZ", none⟩], none, none⟩])).map (List.map jsTierSig)
      = some [((.str "t"), (.str "T"), [((.str "p-a.png"), (.str "A"))])] ∧
    (some [((JSVal.str "t"), (JSVal.str "T"), [((JSVal.str "p-a.png"), (JSVal.str "A"))])]
        : Option (List (JSVal × JSVal × List (JSVal × JSVal))))
      ≠ some ([⟨"t", "T", [⟨"p-a.png", "ZZZ", none⟩], none, none⟩].map tierSig) :=
  ⟨by decide, by decide⟩

/-- C5: when the new template defines no `"uncategorized"` tier and at least
one item is orphaned, reconciliation produces exactly one tier with id
`"uncategorized"` (created at most once however many orphans there are), that
sink is appended at the end of the board, it holds exactly the orphaned items
in origin-map order, and the board is exactly one tier longer than the
template. -/
theorem c5_orphan_sink_created_once (tiers newTemplate : List Tier) (lp : LabelPosition)
    (hno : ∀ t ∈ newTemplate, t.id ≠ "uncategorized")
    (hsome : orphanEntries tiers newTemplate ≠ []) :
    ((handleTemplateChange tiers newTemplate lp).filter
        (fun t => t.id == "uncategorized")).length = 1 ∧
    (handleTemplateChange tiers newTemplate lp).getLast?
      = some ⟨"uncategorized", "", (orphanEntries tiers newTemplate).map (fun e => e.2.1),
          some lp, none⟩ ∧
    (handleTemplateChange tiers newTemplate lp).length = newTemplate.length + 1 := by
  have hu : "uncategorized" ∉ (instantiateTemplate newTemplate lp).map Tier.id := by
    rw [instantiateTemplate_map_id]
    intro hmem
    rcases List.mem_map.mp hmem with ⟨t, ht, hid⟩
    exact hno t ht hid
  obtain ⟨A2, hfold, hids⟩ :=
    foldPlace_split lp (allItemsMap tiers) (instantiateTemplate newTemplate lp) none hu
  have hacc : orphAcc ((instantiateTemplate newTemplate lp).map Tier.id) none (allItemsMap tiers)
      = some ((orphanEntries tiers newTemplate).map fun e => e.2.1) := by
    rw [instantiateTemplate_map_id, orphAcc_none]
    show (if orphanEntries tiers newTemplate = [] then none
      else some ((orphanEntries tiers newTemplate).map fun e => e.2.1))
      = some ((orphanEntries tiers newTemplate).map fun e => e.2.1)
    rw [if_neg hsome]
  have hmain : handleTemplateChange tiers newTemplate lp
      = A2 ++ [⟨"uncategorized", "", (orphanEntries tiers newTemplate).map (fun e => e.2.1),
          some lp, none⟩] := by
    unfold handleTemplateChange
    rw [show instantiateTemplate newTemplate lp
        = instantiateTemplate newTemplate lp ++ sinkList lp none from by simp [sinkList]]
    rw [hfold, hacc]
    rfl
  have hA2id : ∀ t ∈ A2, t.id ≠ "uncategorized" := by
    intro t ht he
    have : t.id ∈ A2.map Tier.id := List.mem_map.mpr ⟨t, ht, rfl⟩
    rw [hids, instantiateTemplate_map_id] at this
    rcases List.mem_map.mp this with ⟨u, hu2, hid⟩
    exact hno u hu2 (hid.trans he)
  refine ⟨?_, ?_, ?_⟩
  · rw [hmain, List.filter_append]
    have hA2 : A2.filter (fun t => t.id == "uncategorized") = [] := by
      rw [List.filter_eq_nil_iff]
      intro t ht
      simpa using hA2id t ht
    rw [hA2]
    simp
  · rw [hmain]
    exact List.getLast?_concat _
  · rw [hmain]
    have hlen : A2.length = newTemplate.length := by
      have h1 := congrArg List.length hids
      rw [List.length_map, List.length_map] at h1
      rw [instantiateTemplate, List.length_map] at h1
      exact h1
    simp [hlen]

/-- Witness for C5 (the spec's orphan-handling test case): a board with tier
`tier-x` holding item `a`, migrated to a template with only `tier-s` and no
`"uncategorized"` tier, yields exactly one appended `"uncategorized"` tier
holding `a`. -/
theorem c5_orphan_sink_witness :
    (∀ t ∈ ([⟨"tier-s", "S", [], none, none⟩] : List Tier), t.id ≠ "uncategorized") ∧
    orphanEntries [⟨"tier-x", "X", [⟨"a", "A", none⟩], none, none⟩]
      [⟨"tier-s", "S", [], none, none⟩] ≠ [] ∧
    (((handleTemplateChange [⟨"tier-x", "X", [⟨"a", "A", none⟩], none, none⟩]
        [⟨"tier-s", "S", [], none, none⟩] .left).filter
          (fun t => t.id == "uncategorized")).length = 1 ∧
      (handleTemplateChange [⟨"tier-x", "X", [⟨"a", "A", none⟩], none, none⟩]
          [⟨"tier-s", "S", [], none, none⟩] .left).getLast?
        = some ⟨"uncategorized", "",
            (orphanEntries [⟨"tier-x", "X", [⟨"a", "A", none⟩], none, none⟩]
              [⟨"tier-s", "S", [], none, none⟩]).map (fun e => e.2.1), some .left, none⟩ ∧
      (handleTemplateChange [⟨"tier-x", "X", [⟨"a", "A", none⟩], none, none⟩]
          [⟨"tier-s", "S", [], none, none⟩] .left).length
        = ([⟨"tier-s", "S", [], none, none⟩] : List Tier).length + 1) :=
  ⟨by decide, by decide,
    c5_orphan_sink_created_once [⟨"tier-x", "X", [⟨"a", "A", none⟩], none, none⟩]
      [⟨"tier-s", "S", [], none, none⟩] .left (by decide) (by decide)⟩

/-- C6 (amended): template reconciliation always yields a board whose item
ids are pairwise distinct, even from an input board containing duplicates
(the origin map deduplicates by id); and `handleItemsCreate` never appends an
item whose id was already on the board, so it preserves id-uniqueness
whenever the incoming batch itself has pairwise-distinct ids.  A batch whose
ids collide internally defeats the filter and duplicates an id (see the C6
counterexample), which is what the correction restricts. -/
theorem c6_id_uniqueness_amended (tiers newTemplate : List Tier) (lp : LabelPosition)
    (board : List Tier) (newItems : List Item) (hb : board ≠ [])
    (hbn : (flatItemIds board).Nodup) (hni : (newItems.map Item.id).Nodup) :
    (flatItemIds (handleTemplateChange tiers newTemplate lp)).Nodup ∧
    ∃ out, handleItemsCreate board newItems = some out ∧
      (flatItemIds out).Nodup ∧
      ∃ addedIds, flatItemIds out = flatItemIds board ++ addedIds ∧
        ∀ x ∈ addedIds, x ∉ flatItemIds board := by
  refine ⟨handleTemplateChange_nodup_ids tiers newTemplate lp, ?_⟩
  match board, hb with
  | b :: bs, _ =>
    set pred : Item → Bool := fun newItem =>
      !((b :: bs).any fun tier => tier.items.any fun item =>
        item.id == newItem.id || item.content == newItem.content) with hpred
    set unique : List Item := newItems.filter pred with huniq
    have hout : handleItemsCreate (b :: bs) newItems
        = some (updateLast (fun t => { t with items := t.items ++ unique }) (b :: bs)) := rfl
    refine ⟨_, hout, ?_, ?_⟩
    · -- Nodup of the result
      have hflat : flatItemIds (updateLast (fun t => { t with items := t.items ++ unique })
          (b :: bs)) = flatItemIds (b :: bs) ++ unique.map Item.id := by
        unfold flatItemIds
        rw [flatItems_updateLast_append unique (by simp), List.map_append]
      rw [hflat]
      have hnu : (unique.map Item.id).Nodup :=
        ((List.filter_sublist newItems).map Item.id).nodup hni
      have hdisj : ∀ x ∈ flatItemIds (b :: bs), x ∉ unique.map Item.id := by
        intro x hx hxu
        rcases List.mem_map.mp hxu with ⟨u, hu, rfl⟩
        have hpu : pred u = true := List.of_mem_filter hu
        rw [hpred] at hpu
        have hany : ((b :: bs).any fun tier => tier.items.any fun item =>
            item.id == u.id || item.content == u.content) = false := by
          simpa using hpu
        unfold flatItemIds flatItems at hx
        rcases List.mem_map.mp hx with ⟨it, hit, hitid⟩
        rcases List.mem_flatMap.mp hit with ⟨t, htmem, hitm⟩
        have h1 := List.any_eq_false.mp hany t htmem
        have h1b : (t.items.any fun item =>
            item.id == u.id || item.content == u.content) = false := by
          simpa using h1
        have h2 := List.any_eq_false.mp h1b it hitm
        have : it.id ≠ u.id := by
          intro he
          rw [he] at h2
          simp at h2
        exact this hitid
      exact List.Nodup.append hbn hnu hdisj
    · refine ⟨unique.map Item.id, ?_, ?_⟩
      · unfold flatItemIds
        rw [flatItems_updateLast_append unique (by simp), List.map_append]
      · intro x hxu hx
        rcases List.mem_map.mp hxu with ⟨u, hu, rfl⟩
        have hpu : pred u = true := List.of_mem_filter hu
        rw [hpred] at hpu
        have hany : ((b :: bs).any fun tier => tier.items.any fun item =>
            item.id == u.id || item.content == u.content) = false := by
          simpa using hpu
        unfold flatItemIds flatItems at hx
        rcases List.mem_map.mp hx with ⟨it, hit, hitid⟩
        rcases List.mem_flatMap.mp hit with ⟨t, htmem, hitm⟩
        have h1 := List.any_eq_false.mp hany t htmem
        have h1b : (t.items.any fun item =>
            item.id == u.id || item.content == u.content) = false := by
          simpa using h1
        have h2 := List.any_eq_false.mp h1b it hitm
        have : it.id ≠ u.id := by
          intro he
          rw [he] at h2
          simp at h2
        exact this hitid

/-- Witness for C6: an id-unique board gains one fresh item with an id not
yet present; the result keeps all item ids pairwise distinct. -/
theorem c6_id_uniqueness_witness :
    ([⟨"t", "T", [⟨"y", "Old", none⟩], none, none⟩] : List Tier) ≠ [] ∧
    (flatItemIds [⟨"t", "T", [⟨"y", "Old", none⟩], none, none⟩]).Nodup ∧
    (([⟨"x", "Foo", none⟩] : List Item).map Item.id).Nodup ∧
    ((flatItemIds (handleTemplateChange [⟨"t", "T", [⟨"y", "Old", none⟩], none, none⟩]
        [⟨"tier-s", "S", [], none, none⟩] .left)).Nodup ∧
      ∃ out, handleItemsCreate [⟨"t", "T", [⟨"y", "Old", none⟩], none, none⟩]
          [⟨"x", "Foo", none⟩] = some out ∧
        (flatItemIds out).Nodup ∧
        ∃ addedIds, flatItemIds out
            = flatItemIds [⟨"t", "T", [⟨"y", "Old", none⟩], none, none⟩] ++ addedIds ∧
          ∀ x ∈ addedIds,
            x ∉ flatItemIds [⟨"t", "T", [⟨"y", "Old", none⟩], none, none⟩]) :=
  ⟨by decide, by decide, by decide,
    c6_id_uniqueness_amended [⟨"t", "T", [⟨"y", "Old", none⟩], none, none⟩]
      [⟨"tier-s", "S", [], none, none⟩] .left
      [⟨"t", "T", [⟨"y", "Old", none⟩], none, none⟩] [⟨"x", "Foo", none⟩]
      (by decide) (by decide) (by decide)⟩

/-- Counterexample for C6 as stated: a single `handleItemsCreate` batch
holding two items with the same id `x` (contents differ, and `x` is not yet
on the board) passes the duplicate filter — which only checks the existing
board — and produces a board carrying the id `x` twice, violating the
uniqueness invariant. -/
theorem c6_counterexample :
    handleItemsCreate [⟨"t", "T", [], none, none⟩]
        [⟨"x", "Foo", none⟩, ⟨"x", "Bar", none⟩]
      = some [⟨"t", "T", [⟨"x", "Foo", none⟩, ⟨"x", "Bar", none⟩], none, none⟩] ∧
    flatItemIds [⟨"t", "T", [⟨"x", "Foo", none⟩, ⟨"x", "Bar", none⟩], none, none⟩]
      = ["x", "x"] ∧
    ¬ (flatItemIds [⟨"t", "T", [⟨"x", "Foo", none⟩, ⟨"x", "Bar", none⟩],
        none, none⟩]).Nodup := by
  refine ⟨rfl, rfl, ?_⟩
  decide

end TierApp
